import Mathlib

/-!
The report dispatcher `Mux` of f9a/ert.

A shallow embedding of `ert.go`.

* A Go `error` value is identified with its message; `nil` is `none`.
* A `Reporter` is a Go function value with side effects.  It is embedded as a
  state-passing function over a world `σ` chosen by the caller of the
  dispatcher (the test suite's `touched` slice is such a world).  A reporter
  returns: it is not a nil function value and does not panic; `Nilable` is the
  dispatcher with reporters that may be nil.  In `Mux.Report` the world is
  disjoint from the registry: a reporter cannot reconfigure the `Mux` it is
  called from, and the same holds for the `ErrorLogger`; `Mux.ReportSt` is the
  dispatcher on a registry that lies in the world.
* `map[string]group` is an association list with at most one entry per key,
  wrapped in `Option` because `Validate` tells the nil map from an
  allocated one.  Go does not fix the order in which `range` visits a map;
  every `range` over the map takes a `RangeOrder`, an arbitrary permutation.
* `runtime.Caller(1)` is the parameter `CallSite`.
* `Trace` is the value of a trace, its segments; `Mem.Trace` is the same struct with its
  slice header, read from a heap of backing arrays, for what `append` in `Add` shares.
  The capacity `append` gives a new array is the parameter `Mem.Growth`.
* What `Report` does to the outside (reporter calls with their return value,
  logger calls, the line printed on standard output) is returned as a list
  of `Event`s next to the final world.
-/

namespace Ert

/-- A Go `error` that is not nil, identified with the text of `Error()`. -/
abbrev GoError := String

/-- Go: `type Trace struct { tt []string }`, the visible contents of the slice. -/
structure Trace where
  tt : List String

/-- Go: `func T(tt ...string) Trace`. -/
def T (tt : List String) : Trace := { tt := tt }

/-- Go: `func (t Trace) String() string`, that is `"/" + strings.Join(t.tt, "/")`. -/
def Trace.String (t : Trace) : String := "/" ++ "/".intercalate t.tt

/-- Go: `type Reporter func(trace Trace, topic, body string) error`. -/
abbrev Reporter (σ : Type) := Trace → String → String → σ → Option GoError × σ

/-- An argument handed to the variadic tail of `LogErrorf`. -/
inductive LogArg where
  | str (s : String)
  | int (i : Int)
deriving DecidableEq, Repr

/-- Go: `type ErrorLogger interface { LogErrorf(error, string, ...interface{}) }`. -/
structure ErrorLogger (σ : Type) where
  LogErrorf : GoError → String → List LogArg → σ → σ

/-- Go: `type group struct { rr []Reporter; tryAll bool }`. -/
structure group (σ : Type) where
  rr : List (Reporter σ)
  tryAll : Bool

/-- Go: `type GroupOptionFunc func(*group)`, the one implementation of `GroupOption`. -/
abbrev GroupOption (σ : Type) := group σ → group σ

/-- Go: `func TryAll() GroupOption`. -/
def TryAll {σ : Type} : GroupOption σ := fun g => { g with tryAll := true }

/-- Go: `type Group struct { Name string; Options []GroupOption; Reporters []Reporter }`. -/
structure Group (σ : Type) where
  Name : String
  Options : List (GroupOption σ)
  Reporters : List (Reporter σ)

/-- The entries of a `map[string]group`. -/
abbrev Entries (σ : Type) := List (String × group σ)

/-- Go: `type Mux struct { logger ErrorLogger; err error; gg map[string]group; nop bool }`. -/
structure Mux (σ : Type) where
  logger : Option (ErrorLogger σ)
  err : Option GoError
  gg : Option (Entries σ)
  nop : Bool

/-- The order in which one `range` statement visits the entries of a map. -/
structure RangeOrder (σ : Type) where
  order : Entries σ → Entries σ
  perm : ∀ l, (order l).Perm l

/-- Go: `runtime.Caller(1)`, the file and line of the caller of `Report`. -/
structure CallSite where
  file : String
  line : Int

/-! ## Map primitives -/

/-- Go: `v, ok := m[name]` on the entries of an allocated map. -/
def entriesGet {σ : Type} : Entries σ → String → Option (group σ)
  | [], _ => none
  | (k, v) :: rest, name => if k = name then some v else entriesGet rest name

/-- Go: `v, ok := m[name]`; a nil map has no key. -/
def mapGet {σ : Type} (m : Option (Entries σ)) (name : String) : Option (group σ) :=
  match m with
  | none => none
  | some l => entriesGet l name

/-- Go: `m[name] = g` on an allocated map. -/
def entriesSet {σ : Type} : Entries σ → String → group σ → Entries σ
  | [], name, g => [(name, g)]
  | (k, v) :: rest, name, g =>
    if k = name then (name, g) :: rest else (k, v) :: entriesSet rest name g

/-! ## Configuration -/

/-- Go: `func (mux *Mux) NewGroup(name string, groupOptions ...GroupOption) *Mux`. -/
def Mux.NewGroup {σ : Type} (mux : Mux σ) (name : String)
    (groupOptions : List (GroupOption σ)) : Mux σ :=
  match mux.err with
  | some _ => mux
  | none =>
    match mapGet mux.gg name with
    | some _ => { mux with err := some ("group '" ++ name ++ "' already exists") }
    | none =>
      let gg : Entries σ := match mux.gg with
        | none => []
        | some l => l
      let g : group σ := groupOptions.foldl (fun g o => o g) { rr := [], tryAll := false }
      { mux with gg := some (entriesSet gg name g) }

/-- Go: `func (mux *Mux) Add(name string, r Reporter) *Mux`. -/
def Mux.Add {σ : Type} (mux : Mux σ) (name : String) (r : Reporter σ) : Mux σ :=
  match mux.err with
  | some _ => mux
  | none =>
    match mux.gg with
    | none => { mux with err := some ("group '" ++ name ++ "' doesn't exists") }
    | some l =>
      match entriesGet l name with
      | none => { mux with err := some ("group '" ++ name ++ "' doesn't exists") }
      | some g => { mux with gg := some (entriesSet l name { g with rr := g.rr ++ [r] }) }

/-- Go: `func (mux *Mux) AddGroup(group Group) *Mux`. -/
def Mux.AddGroup {σ : Type} (mux : Mux σ) (grp : Group σ) : Mux σ :=
  grp.Reporters.foldl (fun m r => m.Add grp.Name r) (mux.NewGroup grp.Name grp.Options)

/-- Go: `func (mux *Mux) AddGroups(groups ...Group) *Mux`. -/
def Mux.AddGroups {σ : Type} (mux : Mux σ) (groups : List (Group σ)) : Mux σ :=
  groups.foldl (fun m g => m.AddGroup g) mux

/-- The loop of `Validate` over the visited entries. -/
def validateLoop {σ : Type} : Entries σ → Option GoError
  | [] => none
  | (n, g) :: rest =>
    if g.rr.length = 0 then some ("group '" ++ n ++ "' hasn't any reporter assigend")
    else validateLoop rest

/-- Go: `func (mux *Mux) Validate() (err error)`. -/
def Mux.Validate {σ : Type} (mux : Mux σ) (ro : RangeOrder σ) : Option GoError :=
  match mux.err with
  | some e => some e
  | none =>
    match mux.gg with
    | none => some "at least on group must be defined"
    | some l => validateLoop (ro.order l)

/-- Go: `type OptionFunc func(*Mux)`, the implementation of the interface `Option`. -/
abbrev MuxOption (σ : Type) := Mux σ → Mux σ

/-- Go: `func Logger(logger ErrorLogger) Option`. -/
def Logger {σ : Type} (logger : ErrorLogger σ) : MuxOption σ :=
  fun m => { m with logger := some logger }

/-- Go: `func New(options ...Option) (mux *Mux)`. -/
def New {σ : Type} (options : List (MuxOption σ)) : Mux σ :=
  options.foldl (fun m o => o m) { logger := none, err := none, gg := none, nop := false }

/-- Go: `func NewNop() (mux *Mux)`. -/
def NewNop {σ : Type} : Mux σ := { logger := none, err := none, gg := none, nop := true }

/-! ## Dispatch -/

/-- What a call of `Report` does to the outside, in program order. -/
inductive Event (σ : Type) where
  /-- The call `r(trace, topic, body)` and the error it returned. -/
  | call (r : Reporter σ) (trace : Trace) (topic body : String) (ret : Option GoError)
  /-- The call `mux.logger.LogErrorf(err, format, args...)`. -/
  | log (err : GoError) (format : String) (args : List LogArg)
  /-- The call `fmt.Println(line)`. -/
  | println (line : String)

/-- Go: `const bodyX`, filled in by `fmt.Sprintf(bodyX, file, line, name, trace)`. -/
def bodyX (file : String) (line : Int) (name : String) (trace : Trace) : String :=
  "\nbad github.com/f9a/ert/mux.Report call from " ++ file ++ ":" ++ toString line
    ++ ": Given report group '" ++ name ++ "' doesn't exists! \n"
    ++ "\nThis message is sent to all registered groups and reporters in hope that this message gone reach the corresponding developer-team.\n"
    ++ "\nOriginal-Trace: " ++ trace.String ++ "\n"
    ++ "\n!! Please try to forward this message to the developer-team !!\n"
    ++ "\nBest regards,\nAva None\n"

/-- The inner loop of the misuse path: `for _, r := range g.rr { r(traceX, topicX, bodyX) }`. -/
def broadcastGroup {σ : Type} (traceX : Trace) (topicX bodyX : String) :
    List (Reporter σ) → σ → List (Event σ) × σ
  | [], w => ([], w)
  | r :: rest, w =>
    let res := r traceX topicX bodyX w
    let tail := broadcastGroup traceX topicX bodyX rest res.2
    (Event.call r traceX topicX bodyX res.1 :: tail.1, tail.2)

/-- The outer loop of the misuse path: `for _, g := range mux.gg { ... }` over the
visited entries. -/
def broadcastAll {σ : Type} (traceX : Trace) (topicX bodyX : String) :
    Entries σ → σ → List (Event σ) × σ
  | [], w => ([], w)
  | (_, g) :: rest, w =>
    let head := broadcastGroup traceX topicX bodyX g.rr w
    let tail := broadcastAll traceX topicX bodyX rest head.2
    (head.1 ++ tail.1, tail.2)

/-- The loop of the normal path, `for i, r := range g.rr { ... }`, from index `i` on. -/
def reportLoop {σ : Type} (logger : Option (ErrorLogger σ)) (name : String) (tryAll : Bool)
    (trace : Trace) (topic body : String) : Nat → List (Reporter σ) → σ → List (Event σ) × σ
  | _, [], w => ([], w)
  | i, r :: rest, w =>
    match r trace topic body w with
    | (some err, w1) =>
      match logger with
      | some l =>
        let tail := reportLoop logger name tryAll trace topic body (i + 1) rest
          (l.LogErrorf err "reporting to group '%s' via reporter no. %d failed"
            [LogArg.str name, LogArg.int i] w1)
        (Event.call r trace topic body (some err) :: Event.println "error while reporting"
          :: Event.log err "reporting to group '%s' via reporter no. %d failed"
            [LogArg.str name, LogArg.int i] :: tail.1, tail.2)
      | none =>
        let tail := reportLoop logger name tryAll trace topic body (i + 1) rest w1
        (Event.call r trace topic body (some err) :: Event.println "error while reporting"
          :: tail.1, tail.2)
    | (none, w1) =>
      if !tryAll then ([Event.call r trace topic body none], w1)
      else
        let tail := reportLoop logger name tryAll trace topic body (i + 1) rest w1
        (Event.call r trace topic body none :: tail.1, tail.2)

/-- Go: `func (mux *Mux) Report(name string, trace Trace, topic, body string)`, run from
the world `w`; `site` is what `runtime.Caller(1)` returns and `ro` the order of the
`range` over `mux.gg`. -/
def Mux.Report {σ : Type} (mux : Mux σ) (ro : RangeOrder σ) (site : CallSite)
    (name : String) (trace : Trace) (topic body : String) (w : σ) : List (Event σ) × σ :=
  if mux.nop then ([], w)
  else
    match mapGet mux.gg name with
    | none =>
      let traceX := T ["github.com", "f9a", "ert", "mux.Report"]
      let topicX := "ERROR: ert: Wrong report group '" ++ name ++ "'"
      let bodyX := bodyX site.file site.line name trace
      let visited : Entries σ := match mux.gg with
        | none => []
        | some l => ro.order l
      match mux.logger with
      | some l =>
        let msg : GoError := "bad github.com/f9a/ert/mux.Report call from " ++ site.file ++ ":"
          ++ toString site.line ++ ": Given report group '" ++ name ++ "' doesn't exists"
        let tail := broadcastAll traceX topicX bodyX visited
          (l.LogErrorf msg "invalid report" [] w)
        (Event.log msg "invalid report" [] :: tail.1, tail.2)
      | none => broadcastAll traceX topicX bodyX visited w
    | some g => reportLoop mux.logger name g.tryAll trace topic body 0 g.rr w

/-- One reporter call: the reporter, the arguments it received and the error it returned. -/
structure Call (σ : Type) where
  reporter : Reporter σ
  trace : Trace
  topic : String
  body : String
  ret : Option GoError

/-- The arguments of a reporter call, without what it returned. -/
def Call.args {σ : Type} (c : Call σ) : Reporter σ × Trace × String × String :=
  (c.reporter, c.trace, c.topic, c.body)

/-- The reporter calls among the events, in program order. -/
def calls {σ : Type} : List (Event σ) → List (Call σ)
  | [] => []
  | Event.call r trace topic body ret :: rest =>
    { reporter := r, trace := trace, topic := topic, body := body, ret := ret } :: calls rest
  | Event.log _ _ _ :: rest => calls rest
  | Event.println _ :: rest => calls rest

/-- The logger calls among the events, in program order: error, format, arguments. -/
def logs {σ : Type} : List (Event σ) → List (GoError × String × List LogArg)
  | [] => []
  | Event.log err format args :: rest => (err, format, args) :: logs rest
  | Event.call _ _ _ _ _ :: rest => logs rest
  | Event.println _ :: rest => logs rest

/-! ## Sequences of configuration calls -/

/-- One call of the configuration surface of `Mux`. -/
inductive ConfigCall (σ : Type) where
  | newGroup (name : String) (groupOptions : List (GroupOption σ))
  | add (name : String) (r : Reporter σ)
  | addGroup (grp : Group σ)
  | addGroups (groups : List (Group σ))

/-- Perform one configuration call. -/
def ConfigCall.run {σ : Type} (c : ConfigCall σ) (mux : Mux σ) : Mux σ :=
  match c with
  | ConfigCall.newGroup name groupOptions => mux.NewGroup name groupOptions
  | ConfigCall.add name r => mux.Add name r
  | ConfigCall.addGroup grp => mux.AddGroup grp
  | ConfigCall.addGroups groups => mux.AddGroups groups

/-- Perform configuration calls one after the other. -/
def configure {σ : Type} (cs : List (ConfigCall σ)) (mux : Mux σ) : Mux σ :=
  cs.foldl (fun m c => c.run m) mux

/-- A configuration call fails when it records an error in a registry that had none. -/
def callFailed {σ : Type} (mux : Mux σ) (c : ConfigCall σ) : Bool :=
  mux.err.isNone && (c.run mux).err.isSome

/-- Some call of the sequence fails. -/
def anyFailed {σ : Type} : Mux σ → List (ConfigCall σ) → Bool
  | _, [] => false
  | mux, c :: cs => callFailed mux c || anyFailed (c.run mux) cs

/-- The registered groups: the entries of `mux.gg`, none for the nil map. -/
def Mux.groups {σ : Type} (mux : Mux σ) : Entries σ :=
  match mux.gg with
  | none => []
  | some l => l

/-! ## The test suite of ert_test.go -/

/-- Go: the closures of `TestERT`, `touched = append(touched, k); return nil`. -/
def touch (k : Int) : Reporter (List Int) := fun _ _ _ touched => (none, touched ++ [k])

/-- A reporter that fails with `msg` and records `k`. -/
def touchFail (k : Int) (msg : GoError) : Reporter (List Int) :=
  fun _ _ _ touched => (some msg, touched ++ [k])

/-- A `range` that visits the entries in the order they were inserted. -/
def insertionOrder (σ : Type) : RangeOrder σ := { order := id, perm := fun l => List.Perm.refl l }

/-- A `range` that visits the entries in the opposite order. -/
def reverseOrder (σ : Type) : RangeOrder σ :=
  { order := List.reverse, perm := fun l => List.reverse_perm l }

/-- Go: the registry of `TestERT` before `Report`. -/
def testMux : Mux (List Int) :=
  (((New []).NewGroup "_why" [TryAll]).Add "_why" (touch 1)).Add "_why" (touch 2)

/-- A logger that records nothing in the world. -/
def quietLogger (σ : Type) : ErrorLogger σ := { LogErrorf := fun _ _ _ w => w }

/-- A group without try-all whose first reporter fails: the second one is the fallback. -/
def fallbackMux : Mux (List Int) :=
  ((((New []).NewGroup "ops" []).Add "ops" (touchFail 1 "smtp down")).Add "ops" (touch 2)).Add
    "ops" (touch 3)

/-- Two groups: the try-all group of `TestERT` and a group whose only reporter fails. -/
def twoGroupMux : Mux (List Int) :=
  (testMux.NewGroup "ops" []).Add "ops" (touchFail 3 "smtp down")

/-- The call site used in the examples. -/
def testSite : CallSite := { file := "ert_test.go", line := 25 }

/-! ## `AddGroup` and `AddGroups` in the words of the specification -/

/-- One `Add` to the group `name` per reporter, in the order of the list. -/
def addEach {σ : Type} (name : String) : List (Reporter σ) → Mux σ → Mux σ
  | [], mux => mux
  | r :: rest, mux => addEach name rest (mux.Add name r)

/-- The specification of `AddGroup`: one `NewGroup` followed by one `Add` per reporter. -/
def AddGroupSpec {σ : Type} (mux : Mux σ) (grp : Group σ) : Mux σ :=
  addEach grp.Name grp.Reporters (mux.NewGroup grp.Name grp.Options)

/-- The specification of `AddGroups`: `AddGroup` for the first group, then for the next. -/
def AddGroupsSpec {σ : Type} : List (Group σ) → Mux σ → Mux σ
  | [], mux => mux
  | grp :: rest, mux => AddGroupsSpec rest (AddGroupSpec mux grp)

/-- Go: the registry of `TestERTAddGroups` before `Report`. -/
def addGroupsMux : Mux (List Int) :=
  (New []).AddGroups [{ Name := "_why", Options := [TryAll], Reporters := [touch 1, touch 2] }]

/-- Go: the second registry of `TestERTError`, one group without reporter. -/
def emptyGroupMux : Mux (List Int) := (New []).NewGroup "something" []

/-! ## Traces in memory

`Trace` above is the value of a trace, its segments.  `Trace.Add` calls the builtin
`append`, whose result may share the backing array of its argument; to say what `Add`
does to other traces, `Mem.Trace` keeps the slice header and reads the segments from a
heap of backing arrays. -/

namespace Mem

/-- A Go slice value `[]string`: the backing array it points into, where it starts in that
array, its length and its capacity. -/
structure Slice where
  arr : Nat
  off : Nat
  len : Nat
  cap : Nat
deriving DecidableEq, Repr

/-- The backing arrays allocated so far; an array is named by its position. -/
abbrev Heap := List (List String)

/-- The elements `s[0], ..., s[len(s)-1]` of a slice. -/
def Slice.elems (h : Heap) (s : Slice) : List String :=
  ((h.getD s.arr []).drop s.off).take s.len

/-- A slice lies within its backing array: `len(s) <= cap(s)`, and the capacity ends
inside the array. -/
def Slice.valid (h : Heap) (s : Slice) : Prop :=
  s.len ≤ s.cap ∧ s.off + s.cap ≤ (h.getD s.arr []).length

/-- The capacity `append` gives a new backing array, from the old capacity and the length
needed; the Go specification only asks that it is sufficient. -/
structure Growth where
  newCap : Nat → Nat → Nat
  enough : ∀ old needed, needed ≤ newCap old needed

/-- Go: the builtin `append(s, xs...)`.  With room in the capacity of `s` the elements are
written into the backing array of `s` behind its length; otherwise a new array is
allocated and the elements of `s` are copied there. -/
def append (gp : Growth) (h : Heap) (s : Slice) (xs : List String) : Heap × Slice :=
  if s.len + xs.length ≤ s.cap then
    (h.set s.arr ((h.getD s.arr []).take (s.off + s.len) ++ xs
        ++ (h.getD s.arr []).drop (s.off + s.len + xs.length)),
      { s with len := s.len + xs.length })
  else
    (h ++ [s.elems h ++ xs
        ++ List.replicate (gp.newCap s.cap (s.len + xs.length) - (s.len + xs.length)) ""],
      { arr := h.length, off := 0, len := s.len + xs.length,
        cap := gp.newCap s.cap (s.len + xs.length) })

/-- Go: the slice a call `f("a", "b")` of a variadic function passes: a new array that
holds the arguments, the nil slice when there is none. -/
def variadic (h : Heap) (xs : List String) : Heap × Slice :=
  if xs.length = 0 then (h, { arr := 0, off := 0, len := 0, cap := 0 })
  else (h ++ [xs], { arr := h.length, off := 0, len := xs.length, cap := xs.length })

/-- Go: `type Trace struct { tt []string }`, with the slice as it lies in memory. -/
structure Trace where
  tt : Slice
deriving DecidableEq, Repr

/-- Go: `func T(tt ...string) Trace`, that is `Trace{tt: tt}`. -/
def T (tt : Slice) : Trace := { tt := tt }

/-- Go: `func (t Trace) Add(tt ...string) Trace`, that is `Trace{tt: append(t.tt, tt...)}`;
`tt` are the elements of the variadic slice. -/
def Trace.Add (gp : Growth) (h : Heap) (t : Trace) (tt : List String) : Heap × Trace :=
  ((append gp h t.tt tt).1, { tt := (append gp h t.tt tt).2 })

/-- The value of a trace in memory: its segments. -/
def Trace.value (h : Heap) (t : Trace) : Ert.Trace := Ert.T (t.tt.elems h)

/-- Go: `func (t Trace) String() string`, that is `"/" + strings.Join(t.tt, "/")`. -/
def Trace.String (h : Heap) (t : Trace) : String := "/" ++ "/".intercalate (t.tt.elems h)

/-- A growth that doubles the capacity when that is enough and else allocates what is
needed.  The Go runtime rounds the result up to an allocation size class; for the slices
built here (strings, capacities 1, 2 and 4) it gives the same capacities. -/
def doubling : Growth :=
  { newCap := fun old needed => max needed (2 * old)
    enough := fun old needed => Nat.le_max_left needed (2 * old) }

end Mem

/-- Go: `T("a")` from the empty heap. -/
def traceA : Mem.Heap × Mem.Trace :=
  ((Mem.variadic [] ["a"]).1, Mem.T (Mem.variadic [] ["a"]).2)

/-- Go: `T("a").Add("b").Add("c")` from the empty heap, with the doubling growth: three
segments in an array of capacity four. -/
def traceABC : Mem.Heap × Mem.Trace :=
  Mem.Trace.Add Mem.doubling
    (Mem.Trace.Add Mem.doubling traceA.1 traceA.2 ["b"]).1
    (Mem.Trace.Add Mem.doubling traceA.1 traceA.2 ["b"]).2 ["c"]

/-- Go: the registry after `New().NewGroup("").Add("", r)`. -/
def emptyNameMux : Mux (List Int) := ((New []).NewGroup "" []).Add "" (touch 1)

/-- The names of the registered groups. -/
def Mux.names {σ : Type} (mux : Mux σ) : List String := mux.groups.map Prod.fst

/-! ## Logging on the normal path -/

/-- The logger call the normal path makes for the call number `i` of a `Report` to the
group `name`: none when the reporter returned nil, else
`LogErrorf(err, "reporting to group '%s' via reporter no. %d failed", name, i)`. -/
def failureLog {σ : Type} (name : String) (p : Nat × Call σ) :
    Option (GoError × String × List LogArg) :=
  match p.2.ret with
  | none => none
  | some err =>
    some (err, "reporting to group '%s' via reporter no. %d failed",
      [LogArg.str name, LogArg.int p.1])

/-- The registry with the same groups and no logger. -/
def Mux.withoutLogger {σ : Type} (mux : Mux σ) : Mux σ := { mux with logger := none }

/-- A logger that leaves the mark 99 in the world. -/
def markLogger : ErrorLogger (List Int) := { LogErrorf := fun _ _ _ w => w ++ [99] }

/-- A reporter that records `k` and succeeds only when the mark 99 is in the world. -/
def needsMark (k : Int) : Reporter (List Int) :=
  fun _ _ _ w => (if 99 ∈ w then none else some "no mark", w ++ [k])

/-- A group without try-all whose second reporter looks at what the logger did. -/
def markMux : Mux (List Int) :=
  ((((New [Logger markLogger]).NewGroup "ops" []).Add "ops" (touchFail 1 "smtp down")).Add
    "ops" (needsMark 2)).Add "ops" (touch 3)

/-! ## The registry as an object in the world

`Validate` and `Report` have the receiver `mux *Mux`: the registry is an object that the
reporters and the logger can reach too (a closure may hold the same pointer and call
`NewGroup` or `Add` on it).  In the definitions of this part the registry lies in the
world: `reg w` is the registry object in the world `w`, every read of a field of `mux` is
a read of `reg` at the world of that moment, and the registry a call leaves behind is
`reg` of the world it returns. -/

/-- The loop of `Validate`, with the world it leaves. -/
def validateLoopSt {σ : Type} : Entries σ → σ → Option GoError × σ
  | [], w => (none, w)
  | (n, g) :: rest, w =>
    if g.rr.length = 0 then (some ("group '" ++ n ++ "' hasn't any reporter assigend"), w)
    else validateLoopSt rest w

/-- Go: `func (mux *Mux) Validate() (err error)` on the registry object of the world `w`:
the error it returns and the world it leaves. -/
def Mux.ValidateSt {σ : Type} (reg : σ → Mux σ) (ro : RangeOrder σ) (w : σ) :
    Option GoError × σ :=
  match (reg w).err with
  | some e => (some e, w)
  | none =>
    match (reg w).gg with
    | none => (some "at least on group must be defined", w)
    | some l => validateLoopSt (ro.order l) w

/-- The loop of the normal path on the registry object: `r` ranges over the slice `g.rr`
read before the loop, `mux.logger` is read when a reporter has failed. -/
def reportLoopSt {σ : Type} (reg : σ → Mux σ) (name : String) (tryAll : Bool)
    (trace : Trace) (topic body : String) : Nat → List (Reporter σ) → σ → List (Event σ) × σ
  | _, [], w => ([], w)
  | i, r :: rest, w =>
    match r trace topic body w with
    | (some err, w1) =>
      match (reg w1).logger with
      | some l =>
        let tail := reportLoopSt reg name tryAll trace topic body (i + 1) rest
          (l.LogErrorf err "reporting to group '%s' via reporter no. %d failed"
            [LogArg.str name, LogArg.int i] w1)
        (Event.call r trace topic body (some err) :: Event.println "error while reporting"
          :: Event.log err "reporting to group '%s' via reporter no. %d failed"
            [LogArg.str name, LogArg.int i] :: tail.1, tail.2)
      | none =>
        let tail := reportLoopSt reg name tryAll trace topic body (i + 1) rest w1
        (Event.call r trace topic body (some err) :: Event.println "error while reporting"
          :: tail.1, tail.2)
    | (none, w1) =>
      if !tryAll then ([Event.call r trace topic body none], w1)
      else
        let tail := reportLoopSt reg name tryAll trace topic body (i + 1) rest w1
        (Event.call r trace topic body none :: tail.1, tail.2)

/-- The outer loop of the misuse path on the registry object, `for _, g := range mux.gg`:
the keys are those the map had when the loop started, in the order of the `range`; the
group of a key is read from the map when the key is reached, and a key that is no more in
the map is not produced. -/
def broadcastAllSt {σ : Type} (reg : σ → Mux σ) (traceX : Trace) (topicX bodyX : String) :
    List String → σ → List (Event σ) × σ
  | [], w => ([], w)
  | k :: rest, w =>
    match mapGet (reg w).gg k with
    | none => broadcastAllSt reg traceX topicX bodyX rest w
    | some g =>
      let head := broadcastGroup traceX topicX bodyX g.rr w
      let tail := broadcastAllSt reg traceX topicX bodyX rest head.2
      (head.1 ++ tail.1, tail.2)

/-- Go: `func (mux *Mux) Report(name string, trace Trace, topic, body string)` on the
registry object of the world `w`: the events and the world it leaves. -/
def Mux.ReportSt {σ : Type} (reg : σ → Mux σ) (ro : RangeOrder σ) (site : CallSite)
    (name : String) (trace : Trace) (topic body : String) (w : σ) : List (Event σ) × σ :=
  if (reg w).nop then ([], w)
  else
    match mapGet (reg w).gg name with
    | none =>
      let traceX := T ["github.com", "f9a", "ert", "mux.Report"]
      let topicX := "ERROR: ert: Wrong report group '" ++ name ++ "'"
      let bodyX := bodyX site.file site.line name trace
      match (reg w).logger with
      | some l =>
        let msg : GoError := "bad github.com/f9a/ert/mux.Report call from " ++ site.file ++ ":"
          ++ toString site.line ++ ": Given report group '" ++ name ++ "' doesn't exists"
        let w1 := l.LogErrorf msg "invalid report" [] w
        let tail := broadcastAllSt reg traceX topicX bodyX
          ((ro.order (reg w1).groups).map Prod.fst) w1
        (Event.log msg "invalid report" [] :: tail.1, tail.2)
      | none =>
        broadcastAllSt reg traceX topicX bodyX ((ro.order (reg w).groups).map Prod.fst) w
    | some g => reportLoopSt reg name g.tryAll trace topic body 0 g.rr w

/-- A reporter that holds the pointer to its own registry and calls `mux.NewGroup(name)`
on it; the world is the list of the names registered this way. -/
def registers (name : String) : Reporter (List String) := fun _ _ _ w => (none, w ++ [name])

/-- Go: the registry after `New().NewGroup("ops").Add("ops", r)` where `r` calls
`mux.NewGroup("late")`. -/
def selfMux : Mux (List String) := ((New []).NewGroup "ops" []).Add "ops" (registers "late")

/-- The registry object in the world `w`: `selfMux` after the `NewGroup` calls that the
reporters have made. -/
def selfReg (w : List String) : Mux (List String) :=
  w.foldl (fun m name => m.NewGroup name []) selfMux

/-- Go: the registry after `New().NewGroup("a").NewGroup("b")`: two groups, no reporter. -/
def twoEmptyMux : Mux (List Int) := ((New []).NewGroup "a" []).NewGroup "b" []

/-- A reporter that records `k` and leaves the registry alone; the world is what was
touched and the names that reporters have registered. -/
def touchOnly (k : Int) : Reporter (List Int × List String) :=
  fun _ _ _ w => (none, (w.1 ++ [k], w.2))

/-- Go: the registry of `TestERT`, in a world where reporters could register groups. -/
def pairMux : Mux (List Int × List String) :=
  (((New []).NewGroup "_why" [TryAll]).Add "_why" (touchOnly 1)).Add "_why" (touchOnly 2)

/-- The registry object in the world `w`: `pairMux` after the `NewGroup` calls that the
reporters have made. -/
def pairReg (w : List Int × List String) : Mux (List Int × List String) :=
  w.2.foldl (fun m name => m.NewGroup name []) pairMux

/-- Go: the calls `NewGroup("ops")`, `Add("ops", r1)`, `Add("ops", r2)`, `Add("ops", r3)`
that build `fallbackMux`. -/
def fallbackCalls : List (ConfigCall (List Int)) :=
  [ConfigCall.newGroup "ops" [], ConfigCall.add "ops" (touchFail 1 "smtp down"),
    ConfigCall.add "ops" (touch 2), ConfigCall.add "ops" (touch 3)]

/-! ## Reporters that may be nil

A Go value of type `Reporter` may be nil, and the call of a nil function panics.
Everywhere else in this file a registered reporter is a function that returns.  In this
part it is nil or such a function, `Add` takes either, and a `Report` ends by returning
or in the panic of a nil call. -/

namespace Nilable

/-- Go: a value of type `Reporter`: nil or a function. -/
abbrev Reporter (σ : Type) := Option (Ert.Reporter σ)

/-- Go: `type group struct { rr []Reporter; tryAll bool }`. -/
structure group (σ : Type) where
  rr : List (Reporter σ)
  tryAll : Bool

/-- The entries of a `map[string]group`. -/
abbrev Entries (σ : Type) := List (String × group σ)

/-- Go: `type Mux struct { logger ErrorLogger; err error; gg map[string]group; nop bool }`. -/
structure Mux (σ : Type) where
  logger : Option (ErrorLogger σ)
  err : Option GoError
  gg : Option (Entries σ)
  nop : Bool

/-- The order in which one `range` statement visits the entries of a map. -/
structure RangeOrder (σ : Type) where
  order : Entries σ → Entries σ
  perm : ∀ l, (order l).Perm l

/-- How a call ends: it returns, or it panics. -/
inductive Ending where
  | returned
  | panicked
deriving DecidableEq, Repr

/-- Go: `v, ok := m[name]` on the entries of an allocated map. -/
def entriesGet {σ : Type} : Entries σ → String → Option (group σ)
  | [], _ => none
  | (k, v) :: rest, name => if k = name then some v else entriesGet rest name

/-- Go: `v, ok := m[name]`; a nil map has no key. -/
def mapGet {σ : Type} (m : Option (Entries σ)) (name : String) : Option (group σ) :=
  match m with
  | none => none
  | some l => entriesGet l name

/-- Go: `m[name] = g` on an allocated map. -/
def entriesSet {σ : Type} : Entries σ → String → group σ → Entries σ
  | [], name, g => [(name, g)]
  | (k, v) :: rest, name, g =>
    if k = name then (name, g) :: rest else (k, v) :: entriesSet rest name g

/-- Go: `func (mux *Mux) NewGroup(name string, groupOptions ...GroupOption) *Mux`. -/
def Mux.NewGroup {σ : Type} (mux : Mux σ) (name : String)
    (groupOptions : List (group σ → group σ)) : Mux σ :=
  match mux.err with
  | some _ => mux
  | none =>
    match mapGet mux.gg name with
    | some _ => { mux with err := some ("group '" ++ name ++ "' already exists") }
    | none =>
      let gg : Entries σ := match mux.gg with
        | none => []
        | some l => l
      let g : group σ := groupOptions.foldl (fun g o => o g) { rr := [], tryAll := false }
      { mux with gg := some (entriesSet gg name g) }

/-- Go: `func (mux *Mux) Add(name string, r Reporter) *Mux`; `r` may be nil. -/
def Mux.Add {σ : Type} (mux : Mux σ) (name : String) (r : Reporter σ) : Mux σ :=
  match mux.err with
  | some _ => mux
  | none =>
    match mux.gg with
    | none => { mux with err := some ("group '" ++ name ++ "' doesn't exists") }
    | some l =>
      match entriesGet l name with
      | none => { mux with err := some ("group '" ++ name ++ "' doesn't exists") }
      | some g => { mux with gg := some (entriesSet l name { g with rr := g.rr ++ [r] }) }

/-- The loop of `Validate` over the visited entries; it looks at `len(g.rr)` only. -/
def validateLoop {σ : Type} : Entries σ → Option GoError
  | [] => none
  | (n, g) :: rest =>
    if g.rr.length = 0 then some ("group '" ++ n ++ "' hasn't any reporter assigend")
    else validateLoop rest

/-- Go: `func (mux *Mux) Validate() (err error)`. -/
def Mux.Validate {σ : Type} (mux : Mux σ) (ro : RangeOrder σ) : Option GoError :=
  match mux.err with
  | some e => some e
  | none =>
    match mux.gg with
    | none => some "at least on group must be defined"
    | some l => validateLoop (ro.order l)

/-- Go: `New()` without options. -/
def New {σ : Type} : Mux σ := { logger := none, err := none, gg := none, nop := false }

/-- The inner loop of the misuse path; the call of a nil reporter panics. -/
def broadcastGroup {σ : Type} (traceX : Trace) (topicX bodyX : String) :
    List (Reporter σ) → σ → List (Event σ) × σ × Ending
  | [], w => ([], w, Ending.returned)
  | none :: _, w => ([], w, Ending.panicked)
  | some r :: rest, w =>
    let res := r traceX topicX bodyX w
    let tail := broadcastGroup traceX topicX bodyX rest res.2
    (Event.call r traceX topicX bodyX res.1 :: tail.1, tail.2)

/-- The outer loop of the misuse path; a panic in a group ends it. -/
def broadcastAll {σ : Type} (traceX : Trace) (topicX bodyX : String) :
    Entries σ → σ → List (Event σ) × σ × Ending
  | [], w => ([], w, Ending.returned)
  | (_, g) :: rest, w =>
    match broadcastGroup traceX topicX bodyX g.rr w with
    | (evs, w1, Ending.panicked) => (evs, w1, Ending.panicked)
    | (evs, w1, Ending.returned) =>
      let tail := broadcastAll traceX topicX bodyX rest w1
      (evs ++ tail.1, tail.2)

/-- The loop of the normal path; the call of a nil reporter panics. -/
def reportLoop {σ : Type} (logger : Option (ErrorLogger σ)) (name : String) (tryAll : Bool)
    (trace : Trace) (topic body : String) :
    Nat → List (Reporter σ) → σ → List (Event σ) × σ × Ending
  | _, [], w => ([], w, Ending.returned)
  | _, none :: _, w => ([], w, Ending.panicked)
  | i, some r :: rest, w =>
    match r trace topic body w with
    | (some err, w1) =>
      match logger with
      | some l =>
        let tail := reportLoop logger name tryAll trace topic body (i + 1) rest
          (l.LogErrorf err "reporting to group '%s' via reporter no. %d failed"
            [LogArg.str name, LogArg.int i] w1)
        (Event.call r trace topic body (some err) :: Event.println "error while reporting"
          :: Event.log err "reporting to group '%s' via reporter no. %d failed"
            [LogArg.str name, LogArg.int i] :: tail.1, tail.2)
      | none =>
        let tail := reportLoop logger name tryAll trace topic body (i + 1) rest w1
        (Event.call r trace topic body (some err) :: Event.println "error while reporting"
          :: tail.1, tail.2)
    | (none, w1) =>
      if !tryAll then ([Event.call r trace topic body none], w1, Ending.returned)
      else
        let tail := reportLoop logger name tryAll trace topic body (i + 1) rest w1
        (Event.call r trace topic body none :: tail.1, tail.2)

/-- Go: `func (mux *Mux) Report(name string, trace Trace, topic, body string)`: the events,
the world it leaves and how it ends. -/
def Mux.Report {σ : Type} (mux : Mux σ) (ro : RangeOrder σ) (site : CallSite)
    (name : String) (trace : Trace) (topic body : String) (w : σ) :
    List (Event σ) × σ × Ending :=
  if mux.nop then ([], w, Ending.returned)
  else
    match mapGet mux.gg name with
    | none =>
      let traceX := T ["github.com", "f9a", "ert", "mux.Report"]
      let topicX := "ERROR: ert: Wrong report group '" ++ name ++ "'"
      let bodyX := bodyX site.file site.line name trace
      let visited : Entries σ := match mux.gg with
        | none => []
        | some l => ro.order l
      match mux.logger with
      | some l =>
        let msg : GoError := "bad github.com/f9a/ert/mux.Report call from " ++ site.file ++ ":"
          ++ toString site.line ++ ": Given report group '" ++ name ++ "' doesn't exists"
        let tail := broadcastAll traceX topicX bodyX visited
          (l.LogErrorf msg "invalid report" [] w)
        (Event.log msg "invalid report" [] :: tail.1, tail.2)
      | none => broadcastAll traceX topicX bodyX visited w
    | some g => reportLoop mux.logger name g.tryAll trace topic body 0 g.rr w

/-- A `range` that visits the entries in the order they were inserted. -/
def insertionOrder (σ : Type) : RangeOrder σ := { order := id, perm := fun l => List.Perm.refl l }

/-- The group with the same reporters, every one a function. -/
def ofGroup {σ : Type} (g : Ert.group σ) : group σ :=
  { rr := g.rr.map some, tryAll := g.tryAll }

/-- The entries with the same groups, every reporter a function. -/
def ofEntries {σ : Type} (l : Ert.Entries σ) : Entries σ := l.map (fun e => (e.1, ofGroup e.2))

/-- The registry with the same groups, every reporter a function. -/
def ofMux {σ : Type} (mux : Ert.Mux σ) : Mux σ :=
  { logger := mux.logger, err := mux.err, gg := mux.gg.map ofEntries, nop := mux.nop }

end Nilable

/-- Go: the registry after `New().NewGroup("ops").Add("ops", nil)`. -/
def nilMux : Nilable.Mux (List Int) := (Nilable.New.NewGroup "ops" []).Add "ops" none

/-! # Theorems -/

section Dispatch

variable {σ : Type}

theorem calls_append (xs ys : List (Event σ)) : calls (xs ++ ys) = calls xs ++ calls ys := by
  induction xs with
  | nil => rfl
  | cons e rest ih => cases e <;> simp [calls, ih]

/-- The normal path for a group without try-all, as a statement about the loop. -/
theorem reportLoop_stop (logger : Option (ErrorLogger σ)) (name : String) (trace : Trace)
    (topic body : String) (rs : List (Reporter σ)) :
    ∀ (i : Nat) (w : σ),
      (∃ k, k < rs.length
          ∧ (calls (reportLoop logger name false trace topic body i rs w).1).map Call.args
              = (rs.take (k + 1)).map (fun r => (r, trace, topic, body))
          ∧ (∀ c ∈ (calls (reportLoop logger name false trace topic body i rs w).1).take k,
              c.ret ≠ none)
          ∧ ((calls (reportLoop logger name false trace topic body i rs w).1).drop k).map Call.ret
              = [none])
      ∨ ((calls (reportLoop logger name false trace topic body i rs w).1).map Call.args
              = rs.map (fun r => (r, trace, topic, body))
          ∧ ∀ c ∈ calls (reportLoop logger name false trace topic body i rs w).1,
              c.ret ≠ none) := by
  induction rs with
  | nil => intro i w; right; simp [reportLoop, calls]
  | cons r rest ih =>
    intro i w
    rcases hr : r trace topic body w with ⟨ret, w1⟩
    cases ret with
    | none =>
      left
      refine ⟨0, by simp, ?_⟩
      simp [reportLoop, hr, calls, Call.args]
    | some err =>
      cases logger with
      | none =>
        rcases ih (i + 1) w1 with ⟨k, hk, hargs, hfail, hlast⟩ | ⟨hargs, hfail⟩
        · left
          refine ⟨k + 1, by simpa using hk, ?_⟩
          simp only [reportLoop, hr, calls]
          refine ⟨?_, ?_, ?_⟩
          · simpa [Call.args] using hargs
          · intro c hc
            simp only [List.take_succ_cons, List.mem_cons] at hc
            rcases hc with rfl | hc
            · simp
            · exact hfail c hc
          · simpa using hlast
        · right
          simp only [reportLoop, hr, calls]
          refine ⟨?_, ?_⟩
          · simpa [Call.args] using hargs
          · intro c hc
            simp only [List.mem_cons] at hc
            rcases hc with rfl | hc
            · simp
            · exact hfail c hc
      | some l =>
        rcases ih (i + 1) (l.LogErrorf err "reporting to group '%s' via reporter no. %d failed"
            [LogArg.str name, LogArg.int i] w1) with ⟨k, hk, hargs, hfail, hlast⟩ | ⟨hargs, hfail⟩
        · left
          refine ⟨k + 1, by simpa using hk, ?_⟩
          simp only [reportLoop, hr, calls]
          refine ⟨?_, ?_, ?_⟩
          · simpa [Call.args] using hargs
          · intro c hc
            simp only [List.take_succ_cons, List.mem_cons] at hc
            rcases hc with rfl | hc
            · simp
            · exact hfail c hc
          · simpa using hlast
        · right
          simp only [reportLoop, hr, calls]
          refine ⟨?_, ?_⟩
          · simpa [Call.args] using hargs
          · intro c hc
            simp only [List.mem_cons] at hc
            rcases hc with rfl | hc
            · simp
            · exact hfail c hc

/-- The normal path for a try-all group, as a statement about the loop. -/
theorem reportLoop_tryAll (logger : Option (ErrorLogger σ)) (name : String) (trace : Trace)
    (topic body : String) (rs : List (Reporter σ)) :
    ∀ (i : Nat) (w : σ),
      (calls (reportLoop logger name true trace topic body i rs w).1).map Call.args
        = rs.map (fun r => (r, trace, topic, body)) := by
  induction rs with
  | nil => intro i w; simp [reportLoop, calls]
  | cons r rest ih =>
    intro i w
    rcases hr : r trace topic body w with ⟨ret, w1⟩
    cases ret with
    | none => simpa [reportLoop, hr, calls, Call.args] using ih (i + 1) w1
    | some err =>
      cases logger with
      | none => simpa [reportLoop, hr, calls, Call.args] using ih (i + 1) w1
      | some l =>
        simpa [reportLoop, hr, calls, Call.args] using ih (i + 1)
          (l.LogErrorf err "reporting to group '%s' via reporter no. %d failed"
            [LogArg.str name, LogArg.int i] w1)

/-- C1: for a registry that is not a no-op and in which `name` is registered without
try-all with reporters `rs`, `Report` calls the reporters `r0..rk` of `rs` in that order,
once each, with the caller's trace, topic and body, where `rk` is the first reporter that
returns no error (every call before it returned an error, and it is the last call); when
no reporter succeeds all of `rs` are called and every call returned an error.  Nothing
else is called. -/
theorem report_stops_at_first_success (mux : Mux σ) (ro : RangeOrder σ) (site : CallSite)
    (name : String) (rs : List (Reporter σ)) (trace : Trace) (topic body : String) (w : σ)
    (hnop : mux.nop = false)
    (hreg : mapGet mux.gg name = some { rr := rs, tryAll := false }) :
    (∃ k, k < rs.length
        ∧ (calls (mux.Report ro site name trace topic body w).1).map Call.args
            = (rs.take (k + 1)).map (fun r => (r, trace, topic, body))
        ∧ (∀ c ∈ (calls (mux.Report ro site name trace topic body w).1).take k, c.ret ≠ none)
        ∧ ((calls (mux.Report ro site name trace topic body w).1).drop k).map Call.ret = [none])
    ∨ ((calls (mux.Report ro site name trace topic body w).1).map Call.args
            = rs.map (fun r => (r, trace, topic, body))
        ∧ ∀ c ∈ calls (mux.Report ro site name trace topic body w).1, c.ret ≠ none) := by
  have h := reportLoop_stop mux.logger name trace topic body rs 0 w
  simpa [Mux.Report, hnop, hreg] using h

/-- C1 at `fallbackMux`: the first reporter fails, the second succeeds, the third is never
called; the world records `[1, 2]`. -/
theorem report_stops_at_first_success_witness :
    (fallbackMux.nop = false
      ∧ mapGet fallbackMux.gg "ops"
          = some { rr := [touchFail 1 "smtp down", touch 2, touch 3], tryAll := false })
    ∧ ((∃ k, k < [touchFail 1 "smtp down", touch 2, touch 3].length
          ∧ (calls (fallbackMux.Report (insertionOrder _) testSite "ops" (T ["super", "yummy"])
                "new guide" "last time" []).1).map Call.args
              = ([touchFail 1 "smtp down", touch 2, touch 3].take (k + 1)).map
                  (fun r => (r, T ["super", "yummy"], "new guide", "last time"))
          ∧ (∀ c ∈ (calls (fallbackMux.Report (insertionOrder _) testSite "ops"
                (T ["super", "yummy"]) "new guide" "last time" []).1).take k, c.ret ≠ none)
          ∧ ((calls (fallbackMux.Report (insertionOrder _) testSite "ops" (T ["super", "yummy"])
                "new guide" "last time" []).1).drop k).map Call.ret = [none])
        ∨ ((calls (fallbackMux.Report (insertionOrder _) testSite "ops" (T ["super", "yummy"])
                "new guide" "last time" []).1).map Call.args
              = [touchFail 1 "smtp down", touch 2, touch 3].map
                  (fun r => (r, T ["super", "yummy"], "new guide", "last time"))
            ∧ ∀ c ∈ calls (fallbackMux.Report (insertionOrder _) testSite "ops"
                (T ["super", "yummy"]) "new guide" "last time" []).1, c.ret ≠ none))
    ∧ (fallbackMux.Report (insertionOrder _) testSite "ops" (T ["super", "yummy"])
          "new guide" "last time" []).2 = [1, 2] :=
  ⟨⟨rfl, rfl⟩,
    report_stops_at_first_success fallbackMux (insertionOrder _) testSite "ops"
      [touchFail 1 "smtp down", touch 2, touch 3] (T ["super", "yummy"]) "new guide" "last time"
      [] rfl rfl,
    rfl⟩

/-- With `[A, B]` and no try-all: if `A` succeeds, only `A` is called. -/
theorem report_pair_first_succeeds (mux : Mux σ) (ro : RangeOrder σ) (site : CallSite)
    (name : String) (A B : Reporter σ) (trace : Trace) (topic body : String) (w : σ)
    (hnop : mux.nop = false)
    (hreg : mapGet mux.gg name = some { rr := [A, B], tryAll := false })
    (hA : (A trace topic body w).1 = none) :
    (calls (mux.Report ro site name trace topic body w).1).map Call.args
      = [(A, trace, topic, body)] := by
  rcases hr : A trace topic body w with ⟨ret, w1⟩
  rw [hr] at hA
  simp only at hA
  subst hA
  simp [Mux.Report, hnop, hreg, reportLoop, hr, calls, Call.args]

/-- With `[A, B]` and no try-all: if `A` fails, `B` is called after it. -/
theorem report_pair_first_fails (mux : Mux σ) (ro : RangeOrder σ) (site : CallSite)
    (name : String) (A B : Reporter σ) (trace : Trace) (topic body : String) (w : σ)
    (hnop : mux.nop = false)
    (hreg : mapGet mux.gg name = some { rr := [A, B], tryAll := false })
    (hA : (A trace topic body w).1 ≠ none) :
    (calls (mux.Report ro site name trace topic body w).1).map Call.args
      = [(A, trace, topic, body), (B, trace, topic, body)] := by
  rcases hr : A trace topic body w with ⟨ret, w1⟩
  rw [hr] at hA
  cases ret with
  | none => exact absurd rfl hA
  | some err =>
    cases hl : mux.logger with
    | none =>
      rcases hb : B trace topic body w1 with ⟨retB, w2⟩
      cases retB <;> simp [Mux.Report, hnop, hreg, reportLoop, hr, hb, hl, calls, Call.args]
    | some l =>
      rcases hb : B trace topic body (l.LogErrorf err
          "reporting to group '%s' via reporter no. %d failed"
          [LogArg.str name, LogArg.int 0] w1) with ⟨retB, w2⟩
      cases retB <;> simp [Mux.Report, hnop, hreg, reportLoop, hr, hb, hl, calls, Call.args]

/-- C2: for a registry that is not a no-op and in which `name` is registered with try-all
with reporters `rs`, `Report` calls every reporter of `rs` once, in registration order,
each with the caller's trace, topic and body, whatever the reporters return. -/
theorem report_tryAll_calls_all (mux : Mux σ) (ro : RangeOrder σ) (site : CallSite)
    (name : String) (rs : List (Reporter σ)) (trace : Trace) (topic body : String) (w : σ)
    (hnop : mux.nop = false)
    (hreg : mapGet mux.gg name = some { rr := rs, tryAll := true }) :
    (calls (mux.Report ro site name trace topic body w).1).map Call.args
      = rs.map (fun r => (r, trace, topic, body)) := by
  have h := reportLoop_tryAll mux.logger name trace topic body rs 0 w
  simpa [Mux.Report, hnop, hreg] using h

/-- C2 at the registry of `TestERT`: both reporters are called and `touched` is `[1, 2]`. -/
theorem report_tryAll_calls_all_witness :
    (testMux.nop = false
      ∧ mapGet testMux.gg "_why" = some { rr := [touch 1, touch 2], tryAll := true })
    ∧ (calls (testMux.Report (insertionOrder _) testSite "_why" (T ["super", "yummy"])
          "new guide" "last time" []).1).map Call.args
        = [touch 1, touch 2].map (fun r => (r, T ["super", "yummy"], "new guide", "last time"))
    ∧ (testMux.Report (insertionOrder _) testSite "_why" (T ["super", "yummy"])
          "new guide" "last time" []).2 = [1, 2] :=
  ⟨⟨rfl, rfl⟩,
    report_tryAll_calls_all testMux (insertionOrder _) testSite "_why" [touch 1, touch 2]
      (T ["super", "yummy"]) "new guide" "last time" [] rfl rfl,
    rfl⟩

/-- The inner loop of the misuse path calls every reporter of the group once, in order,
with the synthetic report. -/
theorem broadcastGroup_calls (traceX : Trace) (topicX bodyX : String) (rs : List (Reporter σ)) :
    ∀ (w : σ), (calls (broadcastGroup traceX topicX bodyX rs w).1).map Call.args
      = rs.map (fun r => (r, traceX, topicX, bodyX)) := by
  induction rs with
  | nil => intro w; simp [broadcastGroup, calls]
  | cons r rest ih =>
    intro w
    simpa [broadcastGroup, calls, Call.args] using ih (r traceX topicX bodyX w).2

/-- The misuse path calls every reporter of every visited group once, group by group. -/
theorem broadcastAll_calls (traceX : Trace) (topicX bodyX : String) (es : Entries σ) :
    ∀ (w : σ), (calls (broadcastAll traceX topicX bodyX es w).1).map Call.args
      = (es.flatMap (fun e => e.2.rr)).map (fun r => (r, traceX, topicX, bodyX)) := by
  induction es with
  | nil => intro w; simp [broadcastAll, calls]
  | cons e rest ih =>
    intro w
    rcases e with ⟨n, g⟩
    simp only [broadcastAll, calls_append, List.map_append, List.flatMap_cons]
    rw [broadcastGroup_calls, ih]

/-- The reporter calls of `Report` for a name that is not registered. -/
theorem report_unknown_calls (mux : Mux σ) (ro : RangeOrder σ) (site : CallSite)
    (name : String) (trace : Trace) (topic body : String) (w : σ)
    (hnop : mux.nop = false) (hreg : mapGet mux.gg name = none) :
    (calls (mux.Report ro site name trace topic body w).1).map Call.args
      = ((ro.order mux.groups).flatMap (fun e => e.2.rr)).map
          (fun r => (r, T ["github.com", "f9a", "ert", "mux.Report"],
            "ERROR: ert: Wrong report group '" ++ name ++ "'",
            bodyX site.file site.line name trace)) := by
  have hvis : (match mux.gg with
      | none => ([] : Entries σ)
      | some l => ro.order l) = ro.order mux.groups := by
    cases hgg : mux.gg with
    | none =>
      have h0 : (ro.order []).Perm [] := ro.perm []
      simp [Mux.groups, hgg, List.Perm.eq_nil h0]
    | some l => simp [Mux.groups, hgg]
  cases hl : mux.logger with
  | none => simp [Mux.Report, hnop, hreg, hl, hvis, broadcastAll_calls]
  | some l => simp [Mux.Report, hnop, hreg, hl, hvis, broadcastAll_calls, calls]

/-- C3: for a registry that is not a no-op and a name that is not registered, `Report`
calls every reporter entry of every registered group once (the called reporters are a
permutation of all reporter entries, group by group in the order of the `range`; the number
of calls is the sum of the reporter counts), whatever the try-all flags and whatever the
reporters return, and every call receives the trace that renders as
"/github.com/f9a/ert/mux.Report" and the topic "ERROR: ert: Wrong report group '<name>'". -/
theorem report_unknown_broadcasts_to_all (mux : Mux σ) (ro : RangeOrder σ) (site : CallSite)
    (name : String) (trace : Trace) (topic body : String) (w : σ)
    (hnop : mux.nop = false) (hreg : mapGet mux.gg name = none) :
    (calls (mux.Report ro site name trace topic body w).1).map Call.reporter
        = (ro.order mux.groups).flatMap (fun e => e.2.rr)
    ∧ ((calls (mux.Report ro site name trace topic body w).1).map Call.reporter).Perm
        (mux.groups.flatMap (fun e => e.2.rr))
    ∧ (calls (mux.Report ro site name trace topic body w).1).length
        = (mux.groups.map (fun e => e.2.rr.length)).sum
    ∧ ∀ c ∈ calls (mux.Report ro site name trace topic body w).1,
        c.trace.String = "/github.com/f9a/ert/mux.Report"
        ∧ c.topic = "ERROR: ert: Wrong report group '" ++ name ++ "'" := by
  have hargs := report_unknown_calls mux ro site name trace topic body w hnop hreg
  have hrep : (calls (mux.Report ro site name trace topic body w).1).map Call.reporter
      = (ro.order mux.groups).flatMap (fun e => e.2.rr) := by
    have h1 := congrArg (List.map (fun a : Reporter σ × Trace × String × String => a.1)) hargs
    simpa [Call.args, Function.comp_def] using h1
  have hperm : ((ro.order mux.groups).flatMap (fun e => e.2.rr)).Perm
      (mux.groups.flatMap (fun e => e.2.rr)) :=
    List.Perm.flatMap_right _ (ro.perm mux.groups)
  refine ⟨hrep, hrep ▸ hperm, ?_, ?_⟩
  · have hlen := congrArg List.length hrep
    rw [List.length_map] at hlen
    rw [hlen, hperm.length_eq, List.length_flatMap]
    rfl
  · intro c hc
    have hmem : c.args ∈ (calls (mux.Report ro site name trace topic body w).1).map Call.args :=
      List.mem_map_of_mem _ hc
    rw [hargs, List.mem_map] at hmem
    obtain ⟨r, _, hr⟩ := hmem
    have ht : c.trace = T ["github.com", "f9a", "ert", "mux.Report"] := by
      have := congrArg (fun a : Reporter σ × Trace × String × String => a.2.1) hr
      simpa [Call.args] using this.symm
    have hto : c.topic = "ERROR: ert: Wrong report group '" ++ name ++ "'" := by
      have := congrArg (fun a : Reporter σ × Trace × String × String => a.2.2.1) hr
      simpa [Call.args] using this.symm
    exact ⟨by rw [ht]; decide, hto⟩

/-- C3 at `twoGroupMux`, visited in reverse order: the three reporters of the two groups
are called, the failing one first, and the world records `[3, 1, 2]`. -/
theorem report_unknown_broadcasts_to_all_witness :
    (twoGroupMux.nop = false ∧ mapGet twoGroupMux.gg "nobody" = none)
    ∧ ((calls (twoGroupMux.Report (reverseOrder _) testSite "nobody" (T ["super", "yummy"])
            "new guide" "last time" []).1).map Call.reporter
          = ((reverseOrder _).order twoGroupMux.groups).flatMap (fun e => e.2.rr)
        ∧ ((calls (twoGroupMux.Report (reverseOrder _) testSite "nobody" (T ["super", "yummy"])
            "new guide" "last time" []).1).map Call.reporter).Perm
            (twoGroupMux.groups.flatMap (fun e => e.2.rr))
        ∧ (calls (twoGroupMux.Report (reverseOrder _) testSite "nobody" (T ["super", "yummy"])
            "new guide" "last time" []).1).length
            = (twoGroupMux.groups.map (fun e => e.2.rr.length)).sum
        ∧ ∀ c ∈ calls (twoGroupMux.Report (reverseOrder _) testSite "nobody"
            (T ["super", "yummy"]) "new guide" "last time" []).1,
            c.trace.String = "/github.com/f9a/ert/mux.Report"
            ∧ c.topic = "ERROR: ert: Wrong report group '" ++ "nobody" ++ "'")
    ∧ (twoGroupMux.groups.map (fun e => e.2.rr.length)).sum = 3
    ∧ (twoGroupMux.Report (reverseOrder _) testSite "nobody" (T ["super", "yummy"])
          "new guide" "last time" []).2 = [3, 1, 2] :=
  ⟨⟨rfl, rfl⟩,
    report_unknown_broadcasts_to_all twoGroupMux (reverseOrder _) testSite "nobody"
      (T ["super", "yummy"]) "new guide" "last time" [] rfl rfl,
    rfl, rfl⟩

theorem logs_append (xs ys : List (Event σ)) : logs (xs ++ ys) = logs xs ++ logs ys := by
  induction xs with
  | nil => rfl
  | cons e rest ih => cases e <;> simp [logs, ih]

theorem broadcastGroup_logs (traceX : Trace) (topicX bodyX : String) (rs : List (Reporter σ)) :
    ∀ (w : σ), logs (broadcastGroup traceX topicX bodyX rs w).1 = [] := by
  induction rs with
  | nil => intro w; rfl
  | cons r rest ih => intro w; simpa [broadcastGroup, logs] using ih _

theorem broadcastAll_logs (traceX : Trace) (topicX bodyX : String) (es : Entries σ) :
    ∀ (w : σ), logs (broadcastAll traceX topicX bodyX es w).1 = [] := by
  induction es with
  | nil => intro w; rfl
  | cons e rest ih =>
    intro w
    rcases e with ⟨n, g⟩
    simp [broadcastAll, logs_append, broadcastGroup_logs, ih]

/-- The logger calls of `Report` for a name that is not registered: one call when there is
a logger, whatever the order of the `range`. -/
theorem report_unknown_logs (mux : Mux σ) (ro : RangeOrder σ) (site : CallSite)
    (name : String) (trace : Trace) (topic body : String) (w : σ)
    (hnop : mux.nop = false) (hreg : mapGet mux.gg name = none) :
    logs (mux.Report ro site name trace topic body w).1
      = match mux.logger with
        | none => []
        | some _ =>
          [("bad github.com/f9a/ert/mux.Report call from " ++ site.file ++ ":"
            ++ toString site.line ++ ": Given report group '" ++ name ++ "' doesn't exists",
            "invalid report", [])] := by
  cases hl : mux.logger with
  | none => simp [Mux.Report, hnop, hreg, hl, broadcastAll_logs]
  | some l => simp [Mux.Report, hnop, hreg, hl, broadcastAll_logs, logs]

/-- C4, as stated, fails: Go fixes no order for the `range` over the map, so two `Report`
calls to an unknown group on one registry may visit the groups in different orders; on
`twoGroupMux` the first call runs the reporters of "_why" first and the second the
reporter of "ops", and the sequences of reporter calls differ. -/
theorem report_unknown_order_differs :
    twoGroupMux.nop = false ∧ mapGet twoGroupMux.gg "nobody" = none
    ∧ (calls (twoGroupMux.Report (insertionOrder _) testSite "nobody" (T ["super", "yummy"])
          "new guide" "last time" []).1).map Call.reporter
        = [touch 1, touch 2, touchFail 3 "smtp down"]
    ∧ (calls (twoGroupMux.Report (reverseOrder _) testSite "nobody" (T ["super", "yummy"])
          "" "" []).1).map Call.reporter
        = [touchFail 3 "smtp down", touch 1, touch 2]
    ∧ (calls (twoGroupMux.Report (insertionOrder _) testSite "nobody" (T ["super", "yummy"])
          "new guide" "last time" []).1).map Call.ret
        ≠ (calls (twoGroupMux.Report (reverseOrder _) testSite "nobody" (T ["super", "yummy"])
          "" "" []).1).map Call.ret
    ∧ (twoGroupMux.Report (insertionOrder _) testSite "nobody" (T ["super", "yummy"])
          "new guide" "last time" []).2 = [1, 2, 3]
    ∧ (twoGroupMux.Report (reverseOrder _) testSite "nobody" (T ["super", "yummy"])
          "" "" []).2 = [3, 1, 2] :=
  ⟨rfl, rfl, rfl, rfl, by decide, rfl, rfl⟩

/-- C4, amended: for a name that is not registered, `Report` does not depend on the
caller's topic and body.  Two calls that differ in topic and body, whose `range` loops
visit the groups in the orders `ro1` and `ro2`, call the same reporter entries with the
same trace, topic and body arguments (the calls of one are a permutation of the calls of
the other) and make the same logger call; when the two orders are the same the two
calls produce the same events in the same sequence, with the same results, and leave
the same world. -/
theorem report_unknown_ignores_payload (mux : Mux σ) (ro1 ro2 : RangeOrder σ)
    (site : CallSite) (name : String) (trace : Trace) (topic1 body1 topic2 body2 : String)
    (w : σ) (hreg : mapGet mux.gg name = none) :
    mux.Report ro1 site name trace topic1 body1 w = mux.Report ro1 site name trace topic2 body2 w
    ∧ calls (mux.Report ro1 site name trace topic1 body1 w).1
        = calls (mux.Report ro1 site name trace topic2 body2 w).1
    ∧ ((calls (mux.Report ro1 site name trace topic1 body1 w).1).map Call.args).Perm
        ((calls (mux.Report ro2 site name trace topic2 body2 w).1).map Call.args)
    ∧ logs (mux.Report ro1 site name trace topic1 body1 w).1
        = logs (mux.Report ro2 site name trace topic2 body2 w).1 := by
  have h : mux.Report ro1 site name trace topic1 body1 w
      = mux.Report ro1 site name trace topic2 body2 w := by
    simp only [Mux.Report, hreg]
  refine ⟨h, by rw [h], ?_, ?_⟩
  · cases hnop : mux.nop with
    | true => simp [Mux.Report, hnop, calls]
    | false =>
      rw [report_unknown_calls mux ro1 site name trace topic1 body1 w hnop hreg,
        report_unknown_calls mux ro2 site name trace topic2 body2 w hnop hreg]
      apply List.Perm.map
      exact List.Perm.flatMap_right _
        ((ro1.perm mux.groups).trans (ro2.perm mux.groups).symm)
  · cases hnop : mux.nop with
    | true => simp [Mux.Report, hnop, logs]
    | false =>
      rw [report_unknown_logs mux ro1 site name trace topic1 body1 w hnop hreg,
        report_unknown_logs mux ro2 site name trace topic2 body2 w hnop hreg]

/-- C4, amended, at `twoGroupMux` with a logger: a report with a secret body visited in
insertion order and a report with an empty body visited in reverse order call the same
three reporters with the same arguments and log the same. -/
theorem report_unknown_ignores_payload_witness :
    mapGet ((Logger (quietLogger _)) twoGroupMux).gg "nobody" = none
    ∧ (((Logger (quietLogger _)) twoGroupMux).Report (insertionOrder _) testSite "nobody"
          (T ["super", "yummy"]) "new guide" "the password is hunter2" []
        = ((Logger (quietLogger _)) twoGroupMux).Report (insertionOrder _) testSite "nobody"
          (T ["super", "yummy"]) "" "" []
      ∧ calls (((Logger (quietLogger _)) twoGroupMux).Report (insertionOrder _) testSite "nobody"
          (T ["super", "yummy"]) "new guide" "the password is hunter2" []).1
        = calls (((Logger (quietLogger _)) twoGroupMux).Report (insertionOrder _) testSite
          "nobody" (T ["super", "yummy"]) "" "" []).1
      ∧ ((calls (((Logger (quietLogger _)) twoGroupMux).Report (insertionOrder _) testSite
          "nobody" (T ["super", "yummy"]) "new guide" "the password is hunter2"
          []).1).map Call.args).Perm
          ((calls (((Logger (quietLogger _)) twoGroupMux).Report (reverseOrder _) testSite
          "nobody" (T ["super", "yummy"]) "" "" []).1).map Call.args)
      ∧ logs (((Logger (quietLogger _)) twoGroupMux).Report (insertionOrder _) testSite "nobody"
          (T ["super", "yummy"]) "new guide" "the password is hunter2" []).1
        = logs (((Logger (quietLogger _)) twoGroupMux).Report (reverseOrder _) testSite
          "nobody" (T ["super", "yummy"]) "" "" []).1)
    ∧ (((Logger (quietLogger _)) twoGroupMux).Report (insertionOrder _) testSite "nobody"
          (T ["super", "yummy"]) "new guide" "the password is hunter2" []).2 = [1, 2, 3]
    ∧ (((Logger (quietLogger _)) twoGroupMux).Report (reverseOrder _) testSite "nobody"
          (T ["super", "yummy"]) "" "" []).2 = [3, 1, 2] :=
  ⟨rfl,
    report_unknown_ignores_payload ((Logger (quietLogger _)) twoGroupMux) (insertionOrder _)
      (reverseOrder _) testSite "nobody" (T ["super", "yummy"]) "new guide"
      "the password is hunter2" "" "" [] rfl,
    rfl, rfl⟩

set_option maxRecDepth 16384 in
/-- C5, as stated, fails: when the caller's topic and body are themselves the diagnostic
text for that name, call site and trace, the broadcast hands every reporter a topic and a
body equal to the caller's. -/
theorem report_unknown_repeats_synthetic_payload :
    testMux.nop = false ∧ mapGet testMux.gg "nobody" = none
    ∧ ∃ c ∈ calls (testMux.Report (insertionOrder _) testSite "nobody" (T ["super", "yummy"])
          "ERROR: ert: Wrong report group 'nobody'"
          "\nbad github.com/f9a/ert/mux.Report call from ert_test.go:25: Given report group 'nobody' doesn't exists! \n\nThis message is sent to all registered groups and reporters in hope that this message gone reach the corresponding developer-team.\n\nOriginal-Trace: /super/yummy\n\n!! Please try to forward this message to the developer-team !!\n\nBest regards,\nAva None\n"
          []).1,
        c.topic = "ERROR: ert: Wrong report group 'nobody'"
        ∧ c.body = "\nbad github.com/f9a/ert/mux.Report call from ert_test.go:25: Given report group 'nobody' doesn't exists! \n\nThis message is sent to all registered groups and reporters in hope that this message gone reach the corresponding developer-team.\n\nOriginal-Trace: /super/yummy\n\n!! Please try to forward this message to the developer-team !!\n\nBest regards,\nAva None\n" :=
  ⟨rfl, rfl,
    { reporter := touch 1, trace := T ["github.com", "f9a", "ert", "mux.Report"],
      topic := "ERROR: ert: Wrong report group 'nobody'",
      body := bodyX "ert_test.go" 25 "nobody" (T ["super", "yummy"]), ret := none },
    List.Mem.head _, rfl, rfl⟩

/-- C5, amended: for a name that is not registered, every reporter call of the broadcast
receives the topic "ERROR: ert: Wrong report group '<name>'" and the body made from the
call site, the name and the trace, whatever topic and body the caller passed; so a call
receives the caller's topic (body) only when the caller's topic (body) is itself that
diagnostic text. -/
theorem report_unknown_sends_synthetic (mux : Mux σ) (ro : RangeOrder σ) (site : CallSite)
    (name : String) (trace : Trace) (topic body : String) (w : σ)
    (hreg : mapGet mux.gg name = none) :
    ∀ c ∈ calls (mux.Report ro site name trace topic body w).1,
      c.topic = "ERROR: ert: Wrong report group '" ++ name ++ "'"
      ∧ c.body = bodyX site.file site.line name trace
      ∧ (topic ≠ "ERROR: ert: Wrong report group '" ++ name ++ "'" → c.topic ≠ topic)
      ∧ (body ≠ bodyX site.file site.line name trace → c.body ≠ body) := by
  intro c hc
  cases hnop : mux.nop with
  | true => simp [Mux.Report, hnop, calls] at hc
  | false =>
    have hargs := report_unknown_calls mux ro site name trace topic body w hnop hreg
    have hmem : c.args ∈ (calls (mux.Report ro site name trace topic body w).1).map Call.args :=
      List.mem_map_of_mem _ hc
    rw [hargs, List.mem_map] at hmem
    obtain ⟨r, _, hr⟩ := hmem
    have hto : c.topic = "ERROR: ert: Wrong report group '" ++ name ++ "'" := by
      have := congrArg (fun a : Reporter σ × Trace × String × String => a.2.2.1) hr
      simpa [Call.args] using this.symm
    have hbo : c.body = bodyX site.file site.line name trace := by
      have := congrArg (fun a : Reporter σ × Trace × String × String => a.2.2.2) hr
      simpa [Call.args] using this.symm
    refine ⟨hto, hbo, ?_, ?_⟩
    · intro hne heq
      exact hne (heq.symm.trans hto)
    · intro hne heq
      exact hne (heq.symm.trans hbo)

/-- C5, amended, at `twoGroupMux`: the caller's topic and body are not what the reporters
receive. -/
theorem report_unknown_sends_synthetic_witness :
    mapGet twoGroupMux.gg "nobody" = none
    ∧ ∀ c ∈ calls (twoGroupMux.Report (insertionOrder _) testSite "nobody"
          (T ["super", "yummy"]) "new guide" "last time" []).1,
        c.topic = "ERROR: ert: Wrong report group '" ++ "nobody" ++ "'"
        ∧ c.body = bodyX testSite.file testSite.line "nobody" (T ["super", "yummy"])
        ∧ ("new guide" ≠ "ERROR: ert: Wrong report group '" ++ "nobody" ++ "'"
            → c.topic ≠ "new guide")
        ∧ ("last time" ≠ bodyX testSite.file testSite.line "nobody" (T ["super", "yummy"])
            → c.body ≠ "last time") :=
  ⟨rfl,
    report_unknown_sends_synthetic twoGroupMux (insertionOrder _) testSite "nobody"
      (T ["super", "yummy"]) "new guide" "last time" [] rfl⟩

end Dispatch

section Configuration

variable {σ : Type}

/-! ## The map primitives -/

theorem entriesGet_set_same (l : Entries σ) (name : String) (g : group σ) :
    entriesGet (entriesSet l name g) name = some g := by
  induction l with
  | nil => simp [entriesSet, entriesGet]
  | cons e rest ih =>
    rcases e with ⟨k, v⟩
    by_cases hk : k = name
    · simp [entriesSet, entriesGet, hk]
    · simp [entriesSet, entriesGet, hk, ih]

theorem entriesGet_set_other (l : Entries σ) (name other : String) (g : group σ)
    (hne : other ≠ name) :
    entriesGet (entriesSet l name g) other = entriesGet l other := by
  induction l with
  | nil =>
    have hne2 : ¬ name = other := fun h => hne h.symm
    simp [entriesSet, entriesGet, hne2]
  | cons e rest ih =>
    rcases e with ⟨k, v⟩
    by_cases hk : k = name
    · have hko : ¬ k = other := fun h => hne (h.symm.trans hk)
      have hno : ¬ name = other := fun h => hne h.symm
      simp [entriesSet, entriesGet, hk, hno]
    · by_cases hko : k = other
      · subst hko
        simp [entriesSet, entriesGet, hk]
      · simp [entriesSet, entriesGet, hk, hko, ih]

theorem entriesSet_ne_nil (l : Entries σ) (name : String) (g : group σ) :
    entriesSet l name g ≠ [] := by
  cases l with
  | nil => simp [entriesSet]
  | cons e rest =>
    rcases e with ⟨k, v⟩
    by_cases hk : k = name <;> simp [entriesSet, hk]

/-! ## Properties kept by every configuration call -/

/-- What `NewGroup` and `Add` keep, `AddGroup` keeps. -/
theorem AddGroup_preserves (P : Mux σ → Prop)
    (hN : ∀ m name opts, P m → P (m.NewGroup name opts))
    (hA : ∀ m name r, P m → P (m.Add name r)) (grp : Group σ) (m : Mux σ) (hm : P m) :
    P (m.AddGroup grp) := by
  unfold Mux.AddGroup
  have key : ∀ (rs : List (Reporter σ)) (m1 : Mux σ), P m1 →
      P (rs.foldl (fun m r => m.Add grp.Name r) m1) := by
    intro rs
    induction rs with
    | nil => intro m1 h; exact h
    | cons r rest ih => intro m1 h; exact ih _ (hA m1 grp.Name r h)
  exact key _ _ (hN m grp.Name grp.Options hm)

/-- What `NewGroup` and `Add` keep, `AddGroups` keeps. -/
theorem AddGroups_preserves (P : Mux σ → Prop)
    (hN : ∀ m name opts, P m → P (m.NewGroup name opts))
    (hA : ∀ m name r, P m → P (m.Add name r)) (groups : List (Group σ)) :
    ∀ (m : Mux σ), P m → P (m.AddGroups groups) := by
  unfold Mux.AddGroups
  induction groups with
  | nil => intro m h; exact h
  | cons g rest ih => intro m h; exact ih _ (AddGroup_preserves P hN hA g m h)

/-- What `NewGroup` and `Add` keep, every configuration call keeps. -/
theorem run_preserves (P : Mux σ → Prop)
    (hN : ∀ m name opts, P m → P (m.NewGroup name opts))
    (hA : ∀ m name r, P m → P (m.Add name r)) (c : ConfigCall σ) (m : Mux σ) (hm : P m) :
    P (c.run m) := by
  cases c with
  | newGroup name opts => exact hN m name opts hm
  | add name r => exact hA m name r hm
  | addGroup grp => exact AddGroup_preserves P hN hA grp m hm
  | addGroups groups => exact AddGroups_preserves P hN hA groups m hm

/-- What `NewGroup` and `Add` keep, every sequence of configuration calls keeps. -/
theorem configure_preserves (P : Mux σ → Prop)
    (hN : ∀ m name opts, P m → P (m.NewGroup name opts))
    (hA : ∀ m name r, P m → P (m.Add name r)) (cs : List (ConfigCall σ)) :
    ∀ (m : Mux σ), P m → P (configure cs m) := by
  unfold configure
  induction cs with
  | nil => intro m h; exact h
  | cons c rest ih => intro m h; exact ih _ (run_preserves P hN hA c m h)

theorem NewGroup_of_err (m : Mux σ) (e : GoError) (name : String) (opts : List (GroupOption σ))
    (herr : m.err = some e) : m.NewGroup name opts = m := by
  simp [Mux.NewGroup, herr]

theorem Add_of_err (m : Mux σ) (e : GoError) (name : String) (r : Reporter σ)
    (herr : m.err = some e) : m.Add name r = m := by
  simp [Mux.Add, herr]

/-- A registry with a recorded error is a fixed point of every configuration call. -/
theorem run_of_err (m : Mux σ) (e : GoError) (herr : m.err = some e) (c : ConfigCall σ) :
    c.run m = m :=
  run_preserves (fun m1 => m1 = m)
    (fun m1 name opts h => by subst h; exact NewGroup_of_err _ e name opts herr)
    (fun m1 name r h => by subst h; exact Add_of_err _ e name r herr) c m rfl

/-- A registry with a recorded error is a fixed point of every sequence of calls. -/
theorem configure_of_err (m : Mux σ) (e : GoError) (herr : m.err = some e)
    (cs : List (ConfigCall σ)) : configure cs m = m :=
  configure_preserves (fun m1 => m1 = m)
    (fun m1 name opts h => by subst h; exact NewGroup_of_err _ e name opts herr)
    (fun m1 name r h => by subst h; exact Add_of_err _ e name r herr) cs m rfl

theorem NewGroup_nop (m : Mux σ) (name : String) (opts : List (GroupOption σ)) :
    (m.NewGroup name opts).nop = m.nop := by
  unfold Mux.NewGroup
  split
  · rfl
  · split <;> rfl

theorem Add_nop (m : Mux σ) (name : String) (r : Reporter σ) : (m.Add name r).nop = m.nop := by
  unfold Mux.Add
  split
  · rfl
  · split
    · rfl
    · split <;> rfl

/-- No configuration call changes the no-op flag. -/
theorem configure_nop (cs : List (ConfigCall σ)) (m : Mux σ) : (configure cs m).nop = m.nop :=
  configure_preserves (fun m1 => m1.nop = m.nop)
    (fun m1 name opts h => (NewGroup_nop m1 name opts).trans h)
    (fun m1 name r h => (Add_nop m1 name r).trans h) cs m rfl

theorem NewGroup_gg_ne_nil (m : Mux σ) (name : String) (opts : List (GroupOption σ))
    (h : m.gg ≠ some []) : (m.NewGroup name opts).gg ≠ some [] := by
  unfold Mux.NewGroup
  split
  · exact h
  · split
    · exact h
    · simp [entriesSet_ne_nil]

theorem Add_gg_ne_nil (m : Mux σ) (name : String) (r : Reporter σ)
    (h : m.gg ≠ some []) : (m.Add name r).gg ≠ some [] := by
  unfold Mux.Add
  split
  · exact h
  · split
    · exact h
    · split
      · exact h
      · simp [entriesSet_ne_nil]

/-- An allocated map is never empty: `NewGroup` allocates it and inserts at once. -/
theorem configure_gg_ne_nil (cs : List (ConfigCall σ)) (m : Mux σ) (h : m.gg ≠ some []) :
    (configure cs m).gg ≠ some [] :=
  configure_preserves (fun m1 => m1.gg ≠ some [])
    (fun m1 name opts h1 => NewGroup_gg_ne_nil m1 name opts h1)
    (fun m1 name r h1 => Add_gg_ne_nil m1 name r h1) cs m h

/-- `New` with logger options starts without error, without map and not as a no-op. -/
theorem New_loggers (ls : List (ErrorLogger σ)) :
    (New (ls.map Logger)).err = none ∧ (New (ls.map Logger)).gg = none
      ∧ (New (ls.map Logger)).nop = false := by
  unfold New
  have key : ∀ (ls : List (ErrorLogger σ)) (m : Mux σ),
      ((ls.map Logger).foldl (fun m o => o m) m).err = m.err
      ∧ ((ls.map Logger).foldl (fun m o => o m) m).gg = m.gg
      ∧ ((ls.map Logger).foldl (fun m o => o m) m).nop = m.nop := by
    intro ls
    induction ls with
    | nil => intro m; exact ⟨rfl, rfl, rfl⟩
    | cons l rest ih => intro m; simpa [Logger] using ih (Logger l m)
  simpa using key ls { logger := none, err := none, gg := none, nop := false }

/-- C6: on a registry created by `NewNop` and configured by any sequence of calls, `Report`
returns at once for every name: no event at all (no reporter call, no logger call) and
the world is unchanged. -/
theorem nop_report_does_nothing (cs : List (ConfigCall σ)) (ro : RangeOrder σ)
    (site : CallSite) (name : String) (trace : Trace) (topic body : String) (w : σ) :
    (configure cs NewNop).Report ro site name trace topic body w = ([], w)
    ∧ calls ((configure cs NewNop).Report ro site name trace topic body w).1 = []
    ∧ logs ((configure cs NewNop).Report ro site name trace topic body w).1 = [] := by
  have hnop : (configure cs (NewNop : Mux σ)).nop = true := configure_nop cs NewNop
  have h : (configure cs NewNop).Report ro site name trace topic body w = ([], w) := by
    simp [Mux.Report, hnop]
  exact ⟨h, by rw [h]; rfl, by rw [h]; rfl⟩

theorem validateLoop_eq_none_iff (l : Entries σ) :
    validateLoop l = none ↔ ∀ e ∈ l, e.2.rr ≠ [] := by
  induction l with
  | nil => simp [validateLoop]
  | cons e rest ih =>
    rcases e with ⟨n, g⟩
    by_cases hg : g.rr = []
    · simp [validateLoop, hg]
    · have hlen : ¬ g.rr.length = 0 := fun h => hg (List.length_eq_zero.mp h)
      simp [validateLoop, hlen, hg, ih]

/-- From a registry without error, no call of the sequence fails exactly when no error is
recorded at the end. -/
theorem anyFailed_eq_false_iff (cs : List (ConfigCall σ)) :
    ∀ (m : Mux σ), m.err = none → (anyFailed m cs = false ↔ (configure cs m).err = none) := by
  induction cs with
  | nil => intro m h; simp [anyFailed, configure, h]
  | cons c rest ih =>
    intro m h
    cases hc : (c.run m).err with
    | none =>
      have := ih (c.run m) hc
      simpa [anyFailed, callFailed, h, hc, configure] using this
    | some e =>
      have hfix : configure rest (c.run m) = c.run m := configure_of_err _ e hc rest
      have hfix2 : configure (c :: rest) m = c.run m := by
        simpa [configure] using hfix
      simp [anyFailed, callFailed, h, hc, hfix2]

/-- `Validate` on a registry configured from a fresh one. -/
theorem validate_nil_iff_of_fresh (m0 : Mux σ) (herr : m0.err = none) (hgg : m0.gg = none)
    (cs : List (ConfigCall σ)) (ro : RangeOrder σ) :
    (configure cs m0).Validate ro = none
      ↔ anyFailed m0 cs = false ∧ (configure cs m0).groups ≠ []
          ∧ ∀ e ∈ (configure cs m0).groups, e.2.rr ≠ [] := by
  rw [anyFailed_eq_false_iff cs m0 herr]
  have hinv : (configure cs m0).gg ≠ some [] := configure_gg_ne_nil cs m0 (by simp [hgg])
  cases he : (configure cs m0).err with
  | some e => simp [Mux.Validate, he]
  | none =>
    cases hg : (configure cs m0).gg with
    | none => simp [Mux.Validate, he, hg, Mux.groups]
    | some l =>
      have hl : l ≠ [] := fun h => hinv (by rw [hg, h])
      have hmem : (∀ e ∈ ro.order l, e.2.rr ≠ []) ↔ ∀ e ∈ l, e.2.rr ≠ [] := by
        constructor
        · intro h e he1
          exact h e ((ro.perm l).mem_iff.mpr he1)
        · intro h e he1
          exact h e ((ro.perm l).mem_iff.mp he1)
      simp only [Mux.Validate, he, hg, Mux.groups, validateLoop_eq_none_iff, hmem]
      simp [hl]

/-- C7: for a registry configured from `New` (with any loggers) or from `NewNop` by any
sequence of configuration calls, and whatever the order of the `range` over the map,
`Validate` returns nil exactly when no call of the sequence failed, at least one group is
registered and every registered group has at least one reporter. -/
theorem validate_nil_iff (ls : List (ErrorLogger σ)) (cs : List (ConfigCall σ))
    (ro : RangeOrder σ) :
    ((configure cs (New (ls.map Logger))).Validate ro = none
      ↔ anyFailed (New (ls.map Logger)) cs = false
          ∧ (configure cs (New (ls.map Logger))).groups ≠ []
          ∧ ∀ e ∈ (configure cs (New (ls.map Logger))).groups, e.2.rr ≠ [])
    ∧ ((configure cs (NewNop : Mux σ)).Validate ro = none
      ↔ anyFailed (NewNop : Mux σ) cs = false
          ∧ (configure cs (NewNop : Mux σ)).groups ≠ []
          ∧ ∀ e ∈ (configure cs (NewNop : Mux σ)).groups, e.2.rr ≠ []) :=
  ⟨validate_nil_iff_of_fresh _ (New_loggers ls).1 (New_loggers ls).2.1 cs ro,
    validate_nil_iff_of_fresh _ rfl rfl cs ro⟩

/-- C8: a registry with a recorded error is left as it is by `NewGroup`, `Add`, `AddGroup`
and `AddGroups`; hence, in a sequence of calls from `New` in which the call `c` is the
first to fail (no error before it, the error `e` after it), the calls after `c` change
nothing and `Validate` returns `e`. -/
theorem config_error_accumulation (ls : List (ErrorLogger σ)) (pre post : List (ConfigCall σ))
    (c : ConfigCall σ) (e : GoError) (ro : RangeOrder σ)
    (hpre : (configure pre (New (ls.map Logger))).err = none)
    (hfail : (c.run (configure pre (New (ls.map Logger)))).err = some e) :
    (∀ (m : Mux σ) (e1 : GoError), m.err = some e1 →
        (∀ name opts, m.NewGroup name opts = m) ∧ (∀ name r, m.Add name r = m)
        ∧ (∀ grp, m.AddGroup grp = m) ∧ (∀ groups, m.AddGroups groups = m))
    ∧ callFailed (configure pre (New (ls.map Logger))) c = true
    ∧ configure (pre ++ c :: post) (New (ls.map Logger))
        = c.run (configure pre (New (ls.map Logger)))
    ∧ (configure (pre ++ c :: post) (New (ls.map Logger))).Validate ro = some e := by
  have hsplit : configure (pre ++ c :: post) (New (ls.map Logger))
      = configure post (c.run (configure pre (New (ls.map Logger)))) := by
    simp [configure, List.foldl_append]
  have hfix : configure (pre ++ c :: post) (New (ls.map Logger))
      = c.run (configure pre (New (ls.map Logger))) := by
    rw [hsplit]
    exact configure_of_err _ e hfail post
  refine ⟨?_, ?_, hfix, ?_⟩
  · intro m e1 h1
    exact ⟨fun name opts => run_of_err m e1 h1 (ConfigCall.newGroup name opts),
      fun name r => run_of_err m e1 h1 (ConfigCall.add name r),
      fun grp => run_of_err m e1 h1 (ConfigCall.addGroup grp),
      fun groups => run_of_err m e1 h1 (ConfigCall.addGroups groups)⟩
  · simp [callFailed, hpre, hfail]
  · rw [hfix]
    simp [Mux.Validate, hfail]

/-- C8 on `TestERTError`: the second `NewGroup("something")` fails; the `Add` to a missing
group after it records nothing and `Validate` returns "group 'something' already exists". -/
theorem config_error_accumulation_witness :
    ((configure [ConfigCall.newGroup "something" []] (New (([] : List (ErrorLogger (List Int))).map
          Logger))).err = none
      ∧ ((ConfigCall.newGroup "something" []).run (configure [ConfigCall.newGroup "something" []]
          (New (([] : List (ErrorLogger (List Int))).map Logger)))).err
          = some "group 'something' already exists")
    ∧ ((∀ (m : Mux (List Int)) (e1 : GoError), m.err = some e1 →
          (∀ name opts, m.NewGroup name opts = m) ∧ (∀ name r, m.Add name r = m)
          ∧ (∀ grp, m.AddGroup grp = m) ∧ (∀ groups, m.AddGroups groups = m))
      ∧ callFailed (configure [ConfigCall.newGroup "something" []]
          (New (([] : List (ErrorLogger (List Int))).map Logger)))
          (ConfigCall.newGroup "something" []) = true
      ∧ configure ([ConfigCall.newGroup "something" []] ++ ConfigCall.newGroup "something" []
            :: [ConfigCall.add "somethingx" (touch 1)])
          (New (([] : List (ErrorLogger (List Int))).map Logger))
          = (ConfigCall.newGroup "something" []).run (configure [ConfigCall.newGroup "something" []]
              (New (([] : List (ErrorLogger (List Int))).map Logger)))
      ∧ (configure ([ConfigCall.newGroup "something" []] ++ ConfigCall.newGroup "something" []
            :: [ConfigCall.add "somethingx" (touch 1)])
          (New (([] : List (ErrorLogger (List Int))).map Logger))).Validate (insertionOrder _)
          = some "group 'something' already exists") :=
  ⟨⟨rfl, rfl⟩,
    config_error_accumulation [] [ConfigCall.newGroup "something" []]
      [ConfigCall.add "somethingx" (touch 1)] (ConfigCall.newGroup "something" [])
      "group 'something' already exists" (insertionOrder _) rfl rfl⟩

/-- A group built from options that are all `TryAll()` has no reporter, and is try-all
exactly when there is an option. -/
theorem foldl_TryAll (opts : List (GroupOption σ)) (hopts : ∀ o ∈ opts, o = TryAll) :
    ∀ (g : group σ),
      (opts.foldl (fun g o => o g) g).rr = g.rr
      ∧ ((opts.foldl (fun g o => o g) g).tryAll = true ↔ (g.tryAll = true ∨ TryAll ∈ opts)) := by
  induction opts with
  | nil => intro g; simp
  | cons o rest ih =>
    intro g
    have ho : o = TryAll := hopts o (List.mem_cons_self _ _)
    have hrest : ∀ o1 ∈ rest, o1 = TryAll := fun o1 h => hopts o1 (List.mem_cons_of_mem _ h)
    subst ho
    have h := ih hrest (TryAll g)
    simp only [List.foldl_cons]
    refine ⟨h.1.trans rfl, ?_⟩
    rw [h.2]
    simp [TryAll]

theorem mapGet_eq_groups (gg : Option (Entries σ)) (name : String) :
    mapGet gg name = entriesGet (match gg with
      | none => []
      | some l => l) name := by
  cases gg <;> rfl

/-- The registry after `NewGroup` of a name that is not registered. -/
theorem NewGroup_fresh (m : Mux σ) (name : String) (opts : List (GroupOption σ))
    (herr : m.err = none) (hreg : mapGet m.gg name = none) :
    m.NewGroup name opts
      = { m with gg := some (entriesSet (match m.gg with
            | none => []
            | some l => l) name (opts.foldl (fun g o => o g) { rr := [], tryAll := false })) } := by
  simp [Mux.NewGroup, herr, hreg]

/-- C9: `NewGroup` on a registry without recorded error.  If `name` is already registered,
the call records "group '<name>' already exists" and leaves the map as it is.  Otherwise
(the options being `TryAll()` options, the only ones there are) it registers `name` with no
reporter and a policy that is try-all exactly when `TryAll()` is among the options, leaves
every other name as it was and records no error. -/
theorem NewGroup_spec (m : Mux σ) (name : String) (opts : List (GroupOption σ))
    (herr : m.err = none) :
    (mapGet m.gg name ≠ none →
        (m.NewGroup name opts).err = some ("group '" ++ name ++ "' already exists")
        ∧ (m.NewGroup name opts).gg = m.gg)
    ∧ (mapGet m.gg name = none →
        ((∀ o ∈ opts, o = TryAll) →
          ∃ g, mapGet (m.NewGroup name opts).gg name = some g ∧ g.rr = []
            ∧ (g.tryAll = true ↔ TryAll ∈ opts))
        ∧ (∀ other, other ≠ name →
            mapGet (m.NewGroup name opts).gg other = mapGet m.gg other)
        ∧ (m.NewGroup name opts).err = none) := by
  constructor
  · intro hreg
    cases hg : mapGet m.gg name with
    | none => exact absurd hg hreg
    | some g => simp [Mux.NewGroup, herr, hg]
  · intro hreg
    have hN := NewGroup_fresh m name opts herr hreg
    refine ⟨?_, ?_, ?_⟩
    · intro hopts
      have hf := foldl_TryAll opts hopts { rr := [], tryAll := false }
      refine ⟨opts.foldl (fun g o => o g) { rr := [], tryAll := false }, ?_, hf.1, ?_⟩
      · rw [hN]
        exact entriesGet_set_same _ _ _
      · simpa using hf.2
    · intro other hne
      rw [hN, mapGet_eq_groups m.gg]
      exact entriesGet_set_other _ _ _ _ hne
    · rw [hN]
      exact herr

/-- C9 on the registry of `TestERT`: "_why" is registered and a second `NewGroup` of it
fails as in `TestERTError`; "ops" is not, and `NewGroup("ops", TryAll())` registers an
empty try-all group. -/
theorem NewGroup_spec_witness :
    testMux.err = none
    ∧ ((mapGet testMux.gg "_why" ≠ none →
          (testMux.NewGroup "_why" [TryAll]).err = some ("group '" ++ "_why" ++ "' already exists")
          ∧ (testMux.NewGroup "_why" [TryAll]).gg = testMux.gg)
      ∧ (mapGet testMux.gg "_why" = none →
          ((∀ o ∈ [(TryAll : GroupOption (List Int))], o = TryAll) →
            ∃ g, mapGet (testMux.NewGroup "_why" [TryAll]).gg "_why" = some g ∧ g.rr = []
              ∧ (g.tryAll = true ↔ TryAll ∈ [(TryAll : GroupOption (List Int))]))
          ∧ (∀ other, other ≠ "_why" →
              mapGet (testMux.NewGroup "_why" [TryAll]).gg other = mapGet testMux.gg other)
          ∧ (testMux.NewGroup "_why" [TryAll]).err = none))
    ∧ ((mapGet testMux.gg "ops" ≠ none →
          (testMux.NewGroup "ops" [TryAll]).err = some ("group '" ++ "ops" ++ "' already exists")
          ∧ (testMux.NewGroup "ops" [TryAll]).gg = testMux.gg)
      ∧ (mapGet testMux.gg "ops" = none →
          ((∀ o ∈ [(TryAll : GroupOption (List Int))], o = TryAll) →
            ∃ g, mapGet (testMux.NewGroup "ops" [TryAll]).gg "ops" = some g ∧ g.rr = []
              ∧ (g.tryAll = true ↔ TryAll ∈ [(TryAll : GroupOption (List Int))]))
          ∧ (∀ other, other ≠ "ops" →
              mapGet (testMux.NewGroup "ops" [TryAll]).gg other = mapGet testMux.gg other)
          ∧ (testMux.NewGroup "ops" [TryAll]).err = none))
    ∧ mapGet testMux.gg "_why" ≠ none ∧ mapGet testMux.gg "ops" = none
    ∧ (∀ o ∈ [(TryAll : GroupOption (List Int))], o = TryAll)
    ∧ (testMux.NewGroup "_why" [TryAll]).err = some "group '_why' already exists"
    ∧ mapGet (testMux.NewGroup "ops" [TryAll]).gg "ops" = some { rr := [], tryAll := true }
    ∧ mapGet (testMux.NewGroup "ops" []).gg "ops" = some { rr := [], tryAll := false } :=
  ⟨rfl,
    NewGroup_spec testMux "_why" [TryAll] rfl,
    NewGroup_spec testMux "ops" [TryAll] rfl,
    fun h => Option.noConfusion h, rfl, fun _ ho => List.eq_of_mem_singleton ho, rfl, rfl, rfl⟩

/-- C10: `Add` on a registry without recorded error.  If `name` is registered with the
group `g`, afterwards its reporters are those of `g` followed by `r`, its policy is that
of `g`, every other name is as it was and no error is recorded.  If `name` is not
registered, the call records "group '<name>' doesn't exists" and leaves the map as it
is. -/
theorem Add_spec (m : Mux σ) (name : String) (r : Reporter σ) (herr : m.err = none) :
    (∀ g, mapGet m.gg name = some g →
        mapGet (m.Add name r).gg name = some { rr := g.rr ++ [r], tryAll := g.tryAll }
        ∧ (∀ other, other ≠ name → mapGet (m.Add name r).gg other = mapGet m.gg other)
        ∧ (m.Add name r).err = none)
    ∧ (mapGet m.gg name = none →
        (m.Add name r).err = some ("group '" ++ name ++ "' doesn't exists")
        ∧ (m.Add name r).gg = m.gg) := by
  constructor
  · intro g hreg
    cases hgg : m.gg with
    | none => simp [mapGet, hgg] at hreg
    | some l =>
      have hl : entriesGet l name = some g := by simpa [mapGet, hgg] using hreg
      refine ⟨?_, ?_, ?_⟩
      · simp [Mux.Add, herr, hgg, hl, mapGet, entriesGet_set_same]
      · intro other hne
        simp [Mux.Add, herr, hgg, hl, mapGet, entriesGet_set_other _ _ _ _ hne]
      · simp [Mux.Add, herr, hgg, hl]
  · intro hreg
    cases hgg : m.gg with
    | none => simp [Mux.Add, herr, hgg]
    | some l =>
      have hl : entriesGet l name = none := by simpa [mapGet, hgg] using hreg
      simp [Mux.Add, herr, hgg, hl]

/-- C10 on the registry of `TestERT`: a third reporter goes after the two of "_why", and
an `Add` to "somethingx" records the error of `TestERTError`. -/
theorem Add_spec_witness :
    testMux.err = none
    ∧ ((∀ g, mapGet testMux.gg "_why" = some g →
          mapGet (testMux.Add "_why" (touch 3)).gg "_why"
            = some { rr := g.rr ++ [touch 3], tryAll := g.tryAll }
          ∧ (∀ other, other ≠ "_why" →
              mapGet (testMux.Add "_why" (touch 3)).gg other = mapGet testMux.gg other)
          ∧ (testMux.Add "_why" (touch 3)).err = none)
      ∧ (mapGet testMux.gg "_why" = none →
          (testMux.Add "_why" (touch 3)).err = some ("group '" ++ "_why" ++ "' doesn't exists")
          ∧ (testMux.Add "_why" (touch 3)).gg = testMux.gg))
    ∧ mapGet testMux.gg "_why" = some { rr := [touch 1, touch 2], tryAll := true }
    ∧ mapGet (testMux.Add "_why" (touch 3)).gg "_why"
        = some { rr := [touch 1, touch 2, touch 3], tryAll := true }
    ∧ ((New []).Add "somethingx" (touch 1) : Mux (List Int)).err
        = some "group 'somethingx' doesn't exists" :=
  ⟨rfl, Add_spec testMux "_why" (touch 3) rfl, rfl, rfl, rfl⟩

end Configuration

section Composition

variable {σ : Type}

theorem addEach_eq_foldl (name : String) (rs : List (Reporter σ)) :
    ∀ (m : Mux σ), addEach name rs m = rs.foldl (fun m r => m.Add name r) m := by
  induction rs with
  | nil => intro m; rfl
  | cons r rest ih => intro m; simpa [addEach] using ih (m.Add name r)

theorem AddGroup_eq_spec (m : Mux σ) (grp : Group σ) : m.AddGroup grp = AddGroupSpec m grp := by
  simp [Mux.AddGroup, AddGroupSpec, addEach_eq_foldl]

theorem AddGroups_eq_spec (groups : List (Group σ)) :
    ∀ (m : Mux σ), m.AddGroups groups = AddGroupsSpec groups m := by
  induction groups with
  | nil => intro m; rfl
  | cons g rest ih =>
    intro m
    have h := ih (m.AddGroup g)
    simp only [Mux.AddGroups, List.foldl_cons] at h ⊢
    rw [h, AddGroupsSpec, AddGroup_eq_spec]

/-- `Add` to a registered group of a registry without error. -/
theorem Add_registered (m : Mux σ) (name : String) (r : Reporter σ) (g : group σ)
    (herr : m.err = none) (hreg : mapGet m.gg name = some g) :
    (m.Add name r).err = none
    ∧ mapGet (m.Add name r).gg name = some { rr := g.rr ++ [r], tryAll := g.tryAll } := by
  cases hgg : m.gg with
  | none => simp [mapGet, hgg] at hreg
  | some l =>
    have hl : entriesGet l name = some g := by simpa [mapGet, hgg] using hreg
    constructor
    · simp [Mux.Add, herr, hgg, hl]
    · simp [Mux.Add, herr, hgg, hl, mapGet, entriesGet_set_same]

/-- One `Add` per reporter to a registered group appends the reporters in order. -/
theorem addEach_registered (name : String) (rs : List (Reporter σ)) :
    ∀ (m : Mux σ) (g : group σ), m.err = none → mapGet m.gg name = some g →
      (addEach name rs m).err = none
      ∧ mapGet (addEach name rs m).gg name = some { rr := g.rr ++ rs, tryAll := g.tryAll } := by
  induction rs with
  | nil => intro m g herr hreg; simpa [addEach, herr] using hreg
  | cons r rest ih =>
    intro m g herr hreg
    have h1 := Add_registered m name r g herr hreg
    have h2 := ih (m.Add name r) _ h1.1 h1.2
    simpa [addEach] using h2

/-- C11: `AddGroup(g)` leaves the registry in the state reached by `NewGroup(g.Name,
g.Options...)` followed by one `Add(g.Name, r)` per reporter of `g` in order, and
`AddGroups` is `AddGroup` for each group in order, from every registry state.  From a
registry without error in which `g.Name` is not registered, no error is recorded and the
group `g.Name` afterwards holds the reporters of `g` in the given order, after those the
options put there, with the policy the options set: for `TryAll()` options exactly the
reporters of `g`, and try-all exactly when `TryAll()` is among the options. -/
theorem AddGroup_refines_spec (m : Mux σ) (grp : Group σ) (groups : List (Group σ)) :
    m.AddGroup grp = AddGroupSpec m grp
    ∧ m.AddGroup grp = configure (ConfigCall.newGroup grp.Name grp.Options
        :: grp.Reporters.map (ConfigCall.add grp.Name)) m
    ∧ m.AddGroups groups = AddGroupsSpec groups m
    ∧ m.AddGroups groups = configure (groups.map ConfigCall.addGroup) m
    ∧ (m.err = none → mapGet m.gg grp.Name = none →
        (m.AddGroup grp).err = none
        ∧ mapGet (m.AddGroup grp).gg grp.Name
            = some { rr := (grp.Options.foldl (fun (g : group σ) o => o g)
                        { rr := [], tryAll := false }).rr ++ grp.Reporters,
                     tryAll := (grp.Options.foldl (fun (g : group σ) o => o g)
                        { rr := [], tryAll := false }).tryAll }
        ∧ ((∀ o ∈ grp.Options, o = TryAll) →
            ∃ g, mapGet (m.AddGroup grp).gg grp.Name = some g ∧ g.rr = grp.Reporters
              ∧ (g.tryAll = true ↔ TryAll ∈ grp.Options))) := by
  refine ⟨AddGroup_eq_spec m grp, ?_, AddGroups_eq_spec groups m, ?_, ?_⟩
  · simp [Mux.AddGroup, configure, ConfigCall.run, List.foldl_map]
  · simp [Mux.AddGroups, configure, ConfigCall.run, List.foldl_map]
  · intro herr hreg
    have hN := NewGroup_fresh m grp.Name grp.Options herr hreg
    have hN1 : (m.NewGroup grp.Name grp.Options).err = none := by rw [hN]; exact herr
    have hN2 : mapGet (m.NewGroup grp.Name grp.Options).gg grp.Name
        = some (grp.Options.foldl (fun g o => o g) { rr := [], tryAll := false }) := by
      rw [hN]
      exact entriesGet_set_same _ _ _
    have h := addEach_registered grp.Name grp.Reporters _ _ hN1 hN2
    rw [AddGroup_eq_spec]
    refine ⟨h.1, h.2, ?_⟩
    intro hopts
    have hf := foldl_TryAll grp.Options hopts { rr := [], tryAll := false }
    refine ⟨_, h.2, ?_, ?_⟩
    · simp [hf.1]
    · simpa using hf.2

/-- C11 on `TestERTAddGroups`: the registry built by `AddGroups` is the one built by
`NewGroup` and two `Add`, it validates, and dispatch records `touched = [1, 2]`. -/
theorem AddGroup_refines_spec_witness :
    ((New [] : Mux (List Int)).AddGroup
          { Name := "_why", Options := [TryAll], Reporters := [touch 1, touch 2] }
        = AddGroupSpec (New [])
          { Name := "_why", Options := [TryAll], Reporters := [touch 1, touch 2] })
    ∧ addGroupsMux.err = none
    ∧ mapGet addGroupsMux.gg "_why" = some { rr := [touch 1, touch 2], tryAll := true }
    ∧ addGroupsMux.Validate (insertionOrder _) = none
    ∧ (addGroupsMux.Report (insertionOrder _) testSite "_why" (T ["super", "yummy"])
          "new guide" "last time" []).2 = [1, 2] :=
  ⟨(AddGroup_refines_spec (New [])
      { Name := "_why", Options := [TryAll], Reporters := [touch 1, touch 2] } []).1,
    rfl, rfl, rfl, rfl⟩

theorem validateLoop_some (l : Entries σ) (h : ∃ e ∈ l, e.2.rr = []) :
    ∃ e ∈ l, e.2.rr = []
      ∧ validateLoop l = some ("group '" ++ e.1 ++ "' hasn't any reporter assigend") := by
  induction l with
  | nil => simp at h
  | cons e rest ih =>
    rcases e with ⟨n, g⟩
    by_cases hg : g.rr = []
    · exact ⟨(n, g), List.mem_cons_self _ _, hg, by simp [validateLoop, hg]⟩
    · have hlen : ¬ g.rr.length = 0 := fun h0 => hg (List.length_eq_zero.mp h0)
      have hrest : ∃ e ∈ rest, e.2.rr = [] := by
        obtain ⟨e, he, hr⟩ := h
        rcases List.mem_cons.mp he with rfl | he1
        · exact absurd hr hg
        · exact ⟨e, he1, hr⟩
      obtain ⟨e, he, hr, hv⟩ := ih hrest
      exact ⟨e, List.mem_cons_of_mem _ he, hr, by simpa [validateLoop, hlen] using hv⟩

/-- C12: on a registry configured from `New` in which no error is recorded: if no group is
registered, `Validate` returns "at least on group must be defined"; otherwise, if some
registered group has no reporter, `Validate` returns "group '<n>' hasn't any reporter
assigend" for the name `n` of a registered group without reporter, whatever the order of
the `range` over the map. -/
theorem validate_own_checks (ls : List (ErrorLogger σ)) (cs : List (ConfigCall σ))
    (ro : RangeOrder σ) (herr : (configure cs (New (ls.map Logger))).err = none) :
    ((configure cs (New (ls.map Logger))).groups = [] →
        (configure cs (New (ls.map Logger))).Validate ro
          = some "at least on group must be defined")
    ∧ ((configure cs (New (ls.map Logger))).groups ≠ [] →
        (∃ e ∈ (configure cs (New (ls.map Logger))).groups, e.2.rr = []) →
        ∃ e ∈ (configure cs (New (ls.map Logger))).groups, e.2.rr = []
          ∧ (configure cs (New (ls.map Logger))).Validate ro
              = some ("group '" ++ e.1 ++ "' hasn't any reporter assigend")) := by
  have hinv : (configure cs (New (ls.map Logger))).gg ≠ some [] :=
    configure_gg_ne_nil cs _ (by simp [(New_loggers ls).2.1])
  cases hg : (configure cs (New (ls.map Logger))).gg with
  | none => simp [Mux.Validate, herr, hg, Mux.groups]
  | some l =>
    have hl : l ≠ [] := fun h => hinv (by rw [hg, h])
    refine ⟨fun h0 => absurd (by simpa [Mux.groups, hg] using h0) hl, ?_⟩
    intro _ hex
    have hex1 : ∃ e ∈ ro.order l, e.2.rr = [] := by
      obtain ⟨e, he, hr⟩ := hex
      have he1 : e ∈ l := by simpa [Mux.groups, hg] using he
      exact ⟨e, (ro.perm l).mem_iff.mpr he1, hr⟩
    obtain ⟨e, he, hr, hv⟩ := validateLoop_some (ro.order l) hex1
    refine ⟨e, ?_, hr, ?_⟩
    · have := (ro.perm l).mem_iff.mp he
      simpa [Mux.groups, hg] using this
    · simpa [Mux.Validate, herr, hg] using hv

/-- C12 on `TestERTError`: `New()` fails with "at least on group must be defined", and
after `NewGroup("something")` with "group 'something' hasn't any reporter assigend". -/
theorem validate_own_checks_witness :
    (configure [ConfigCall.newGroup "something" []]
        (New (([] : List (ErrorLogger (List Int))).map Logger))).err = none
    ∧ (((configure [ConfigCall.newGroup "something" []]
          (New (([] : List (ErrorLogger (List Int))).map Logger))).groups = [] →
        (configure [ConfigCall.newGroup "something" []]
          (New (([] : List (ErrorLogger (List Int))).map Logger))).Validate (insertionOrder _)
          = some "at least on group must be defined")
      ∧ ((configure [ConfigCall.newGroup "something" []]
          (New (([] : List (ErrorLogger (List Int))).map Logger))).groups ≠ [] →
        (∃ e ∈ (configure [ConfigCall.newGroup "something" []]
          (New (([] : List (ErrorLogger (List Int))).map Logger))).groups, e.2.rr = []) →
        ∃ e ∈ (configure [ConfigCall.newGroup "something" []]
            (New (([] : List (ErrorLogger (List Int))).map Logger))).groups, e.2.rr = []
          ∧ (configure [ConfigCall.newGroup "something" []]
              (New (([] : List (ErrorLogger (List Int))).map Logger))).Validate
                (insertionOrder _)
              = some ("group '" ++ e.1 ++ "' hasn't any reporter assigend")))
    ∧ (New [] : Mux (List Int)).Validate (insertionOrder _)
        = some "at least on group must be defined"
    ∧ emptyGroupMux.Validate (insertionOrder _)
        = some "group 'something' hasn't any reporter assigend" :=
  ⟨rfl,
    validate_own_checks [] [ConfigCall.newGroup "something" []] (insertionOrder _) rfl,
    rfl, rfl⟩

end Composition

section Traces

/-- Writing `xs` behind the first `off + len` elements of an array leaves the elements
from `off` to `off + len` as they were and puts `xs` behind them. -/
theorem write_behind (a xs : List String) (off len : Nat)
    (hp : off + len + xs.length ≤ a.length) :
    ((a.take (off + len) ++ xs ++ a.drop (off + len + xs.length)).drop off).take len
        = (a.drop off).take len
    ∧ ((a.take (off + len) ++ xs ++ a.drop (off + len + xs.length)).drop off).take
          (len + xs.length) = (a.drop off).take len ++ xs := by
  have hlen : (a.take (off + len)).length = off + len := by
    rw [List.length_take]; omega
  constructor
  · rw [List.take_drop, List.append_assoc, List.take_left' hlen, ← List.take_drop]
  · have hlen2 : (a.take (off + len) ++ xs).length = off + (len + xs.length) := by
      rw [List.length_append, hlen]; omega
    rw [List.take_drop, List.take_left' hlen2,
      List.drop_append_of_le_length (by rw [hlen]; omega), ← List.take_drop]

/-- A valid slice whose array is not allocated is empty. -/
theorem Mem.valid_unallocated (h : Mem.Heap) (s : Mem.Slice) (hv : s.valid h)
    (harr : h.length ≤ s.arr) : s.len = 0 ∧ s.cap = 0 := by
  have hnil : h.getD s.arr [] = [] := by
    simp [List.getD_eq_getElem?_getD, List.getElem?_eq_none harr]
  unfold Mem.Slice.valid at hv
  rw [hnil] at hv
  simp only [List.length_nil] at hv
  omega

theorem Mem.elems_length (h : Mem.Heap) (s : Mem.Slice) (hv : s.valid h) :
    (s.elems h).length = s.len := by
  unfold Mem.Slice.valid at hv
  unfold Mem.Slice.elems
  rw [List.length_take, List.length_drop]
  omega

/-- What `append` returns and what it leaves of its argument. -/
theorem Mem.append_spec (gp : Mem.Growth) (h : Mem.Heap) (s : Mem.Slice) (xs : List String)
    (hv : s.valid h) :
    (Mem.append gp h s xs).2.elems (Mem.append gp h s xs).1 = s.elems h ++ xs
    ∧ s.elems (Mem.append gp h s xs).1 = s.elems h
    ∧ (Mem.append gp h s xs).2.valid (Mem.append gp h s xs).1 := by
  have hv0 := hv
  unfold Mem.Slice.valid at hv
  by_cases hroom : s.len + xs.length ≤ s.cap
  · -- the elements are written into the backing array of `s`
    have hA : Mem.append gp h s xs
        = (h.set s.arr ((h.getD s.arr []).take (s.off + s.len) ++ xs
            ++ (h.getD s.arr []).drop (s.off + s.len + xs.length)),
          { s with len := s.len + xs.length }) := by
      unfold Mem.append
      exact if_pos hroom
    have hp : s.off + s.len + xs.length ≤ (h.getD s.arr []).length := by omega
    have hw := write_behind (h.getD s.arr []) xs s.off s.len hp
    rw [hA]
    by_cases harr : s.arr < h.length
    · have hget : (h.set s.arr ((h.getD s.arr []).take (s.off + s.len) ++ xs
          ++ (h.getD s.arr []).drop (s.off + s.len + xs.length))).getD s.arr []
          = (h.getD s.arr []).take (s.off + s.len) ++ xs
            ++ (h.getD s.arr []).drop (s.off + s.len + xs.length) := by
        simp [List.getD_eq_getElem?_getD, List.getElem?_set_self harr]
      refine ⟨?_, ?_, ?_⟩
      · show List.take (s.len + xs.length) (List.drop s.off (List.getD _ s.arr [])) = _
        rw [hget]
        exact hw.2
      · show List.take s.len (List.drop s.off (List.getD _ s.arr [])) = _
        rw [hget]
        exact hw.1
      · show s.len + xs.length ≤ s.cap ∧ s.off + s.cap ≤ (List.getD _ s.arr []).length
        rw [hget]
        refine ⟨hroom, ?_⟩
        simp only [List.length_append, List.length_take, List.length_drop]
        omega
    · have hz := Mem.valid_unallocated h s hv0 (by omega)
      have hx : xs = [] := List.length_eq_zero.mp (by omega)
      have hset : h.set s.arr ((h.getD s.arr []).take (s.off + s.len) ++ xs
          ++ (h.getD s.arr []).drop (s.off + s.len + xs.length)) = h :=
        List.set_eq_of_length_le (by omega)
      rw [hset]
      subst hx
      refine ⟨?_, ?_, ?_⟩
      · show List.take (s.len + 0) (List.drop s.off (List.getD h s.arr [])) = _
        simp [Mem.Slice.elems]
      · rfl
      · show s.len + 0 ≤ s.cap ∧ s.off + s.cap ≤ (List.getD h s.arr []).length
        exact hv
  · -- a new array is allocated behind the others
    have hA : Mem.append gp h s xs
        = (h ++ [s.elems h ++ xs ++ List.replicate
            (gp.newCap s.cap (s.len + xs.length) - (s.len + xs.length)) ""],
          { arr := h.length, off := 0, len := s.len + xs.length,
            cap := gp.newCap s.cap (s.len + xs.length) }) := by
      unfold Mem.append
      exact if_neg hroom
    have hel := Mem.elems_length h s hv0
    have hnew : (h ++ [s.elems h ++ xs ++ List.replicate
          (gp.newCap s.cap (s.len + xs.length) - (s.len + xs.length)) ""]).getD h.length []
        = s.elems h ++ xs ++ List.replicate
          (gp.newCap s.cap (s.len + xs.length) - (s.len + xs.length)) "" := by
      simp [List.getD_eq_getElem?_getD]
    have hge := gp.enough s.cap (s.len + xs.length)
    rw [hA]
    refine ⟨?_, ?_, ?_⟩
    · show List.take (s.len + xs.length) (List.drop 0 (List.getD _ h.length [])) = _
      rw [hnew, List.drop_zero]
      exact List.take_left' (by rw [List.length_append, hel])
    · by_cases harr : s.arr < h.length
      · have hold : (h ++ [s.elems h ++ xs ++ List.replicate
            (gp.newCap s.cap (s.len + xs.length) - (s.len + xs.length)) ""]).getD s.arr []
            = h.getD s.arr [] := by
          simp [List.getD_eq_getElem?_getD, List.getElem?_append_left harr]
        show List.take s.len (List.drop s.off (List.getD _ s.arr [])) = _
        rw [hold]
        rfl
      · have hz := Mem.valid_unallocated h s hv0 (by omega)
        simp [Mem.Slice.elems, hz.1]
    · show s.len + xs.length ≤ gp.newCap s.cap (s.len + xs.length)
        ∧ 0 + gp.newCap s.cap (s.len + xs.length) ≤ (List.getD _ h.length []).length
      rw [hnew]
      refine ⟨hge, ?_⟩
      simp only [List.length_append, List.length_replicate, hel]
      omega

/-- C13: `Add` does not change its receiver: for a trace `t` with segments `ss` (a valid
slice of the heap) and segments `more`, `t.Add(more)` has the segments `ss ++ more` and
renders as "/" followed by them joined by "/", and `t` afterwards still has the segments
`ss` and renders as before. -/
theorem Add_keeps_receiver (gp : Mem.Growth) (h : Mem.Heap) (t : Mem.Trace)
    (more : List String) (hv : t.tt.valid h) :
    (t.Add gp h more).2.tt.elems (t.Add gp h more).1 = t.tt.elems h ++ more
    ∧ (t.Add gp h more).2.String (t.Add gp h more).1
        = "/" ++ "/".intercalate (t.tt.elems h ++ more)
    ∧ t.tt.elems (t.Add gp h more).1 = t.tt.elems h
    ∧ t.String (t.Add gp h more).1 = t.String h
    ∧ (t.Add gp h more).2.tt.valid (t.Add gp h more).1 := by
  have hs := Mem.append_spec gp h t.tt more hv
  simp only [Mem.Trace.Add, Mem.Trace.String]
  exact ⟨hs.1, by rw [hs.1], hs.2.1, by rw [hs.2.1], hs.2.2⟩

/-- C13 on the example of the specification: `t := T("a")`, `t2 := t.Add("b")` give
`t.String() == "/a"` and `t2.String() == "/a/b"`. -/
theorem Add_keeps_receiver_witness :
    traceA.2.tt.valid traceA.1
    ∧ ((traceA.2.Add Mem.doubling traceA.1 ["b"]).2.tt.elems
          (traceA.2.Add Mem.doubling traceA.1 ["b"]).1 = traceA.2.tt.elems traceA.1 ++ ["b"]
      ∧ (traceA.2.Add Mem.doubling traceA.1 ["b"]).2.String
          (traceA.2.Add Mem.doubling traceA.1 ["b"]).1
          = "/" ++ "/".intercalate (traceA.2.tt.elems traceA.1 ++ ["b"])
      ∧ traceA.2.tt.elems (traceA.2.Add Mem.doubling traceA.1 ["b"]).1
          = traceA.2.tt.elems traceA.1
      ∧ traceA.2.String (traceA.2.Add Mem.doubling traceA.1 ["b"]).1
          = traceA.2.String traceA.1
      ∧ (traceA.2.Add Mem.doubling traceA.1 ["b"]).2.tt.valid
          (traceA.2.Add Mem.doubling traceA.1 ["b"]).1)
    ∧ traceA.2.String (traceA.2.Add Mem.doubling traceA.1 ["b"]).1 = "/a"
    ∧ (traceA.2.Add Mem.doubling traceA.1 ["b"]).2.String
        (traceA.2.Add Mem.doubling traceA.1 ["b"]).1 = "/a/b" :=
  ⟨⟨by decide, by decide⟩,
    Add_keeps_receiver Mem.doubling traceA.1 traceA.2 ["b"] ⟨by decide, by decide⟩, rfl, rfl⟩

/-- C14 fails on the code: with `t := T("a").Add("b").Add("c")`, three segments in an array
of capacity four, `t2 := t.Add("x")` renders as "/a/b/c/x", and after `t3 := t.Add("y")`
both `t3` and `t2` render as "/a/b/c/y": the second `append` wrote into the array that
`t2` reads. -/
theorem Add_second_branch_rewrites_first :
    traceABC.2.tt.valid traceABC.1
    ∧ traceABC.2.String traceABC.1 = "/a/b/c"
    ∧ (traceABC.2.Add Mem.doubling traceABC.1 ["x"]).2.String
        (traceABC.2.Add Mem.doubling traceABC.1 ["x"]).1 = "/a/b/c/x"
    ∧ (traceABC.2.Add Mem.doubling (traceABC.2.Add Mem.doubling traceABC.1 ["x"]).1 ["y"]).2.String
        (traceABC.2.Add Mem.doubling (traceABC.2.Add Mem.doubling traceABC.1 ["x"]).1 ["y"]).1
        = "/a/b/c/y"
    ∧ (traceABC.2.Add Mem.doubling traceABC.1 ["x"]).2.String
        (traceABC.2.Add Mem.doubling (traceABC.2.Add Mem.doubling traceABC.1 ["x"]).1 ["y"]).1
        = "/a/b/c/y" :=
  ⟨⟨by decide, by decide⟩, rfl, rfl, rfl, rfl⟩

/-- Two branches from a trace with spare capacity share its array: when `a` and `b` have
the same length and fit into the capacity of `t`, after `t2 := t.Add(a)` and then
`t3 := t.Add(b)` the trace `t2` has the segments of `t` followed by `b`, whatever the
growth of `append`. -/
theorem Add_branches_share_array (gp : Mem.Growth) (h : Mem.Heap) (t : Mem.Trace)
    (a b : List String) (hv : t.tt.valid h) (hlen : a.length = b.length)
    (hroom : t.tt.len + a.length ≤ t.tt.cap) :
    (t.Add gp h a).2.tt.elems (t.Add gp (t.Add gp h a).1 b).1 = t.tt.elems h ++ b := by
  have hsa := Mem.append_spec gp h t.tt a hv
  have hroomb : t.tt.len + b.length ≤ t.tt.cap := by omega
  have h2 : (Mem.append gp h t.tt a).2 = { t.tt with len := t.tt.len + a.length } := by
    unfold Mem.append
    rw [if_pos hroom]
  have h3 : ∀ h1, (Mem.append gp h1 t.tt b).2 = { t.tt with len := t.tt.len + a.length } := by
    intro h1
    unfold Mem.append
    rw [if_pos hroomb, hlen]
  have hv1 : t.tt.valid (Mem.append gp h t.tt a).1 := by
    have hr := hsa.2.2
    rw [h2] at hr
    unfold Mem.Slice.valid at hr hv ⊢
    exact ⟨hv.1, hr.2⟩
  have hsb := Mem.append_spec gp (Mem.append gp h t.tt a).1 t.tt b hv1
  simp only [Mem.Trace.Add]
  rw [h2, ← h3 (Mem.append gp h t.tt a).1, hsb.1, hsa.2.1]

end Traces

section Rendering

theorem foldl_append_acc (l : List String) :
    ∀ (acc : String), l.foldl (fun r s => r ++ s) acc = acc ++ l.foldl (fun r s => r ++ s) "" := by
  induction l with
  | nil => intro acc; simp
  | cons a rest ih =>
    intro acc
    simp only [List.foldl_cons]
    rw [ih (acc ++ a), ih ("" ++ a), String.empty_append, String.append_assoc]

theorem join_cons (a : String) (l : List String) : String.join (a :: l) = a ++ String.join l := by
  simp only [String.join, List.foldl_cons]
  rw [foldl_append_acc, String.empty_append]

theorem intercalate_go_slash (as : List String) :
    ∀ (acc : String),
      String.intercalate.go acc "/" as = acc ++ String.join (as.map (fun s => "/" ++ s)) := by
  induction as with
  | nil => intro acc; simp [String.intercalate.go, String.join]
  | cons a rest ih =>
    intro acc
    simp only [String.intercalate.go, List.map_cons]
    rw [ih, join_cons]
    simp only [String.append_assoc]

/-- C15: a trace with segments `ss` renders as "/" followed by the segments joined by "/";
when there is a segment that is each segment behind a "/", "/s1/s2/.../sn"; the trace
without segments renders as "/".  A trace in memory renders as its segments do. -/
theorem String_renders (ss : List String) :
    (T ss).String = "/" ++ "/".intercalate ss
    ∧ (ss ≠ [] → (T ss).String = String.join (ss.map (fun s => "/" ++ s)))
    ∧ (T []).String = "/"
    ∧ (∀ (h : Mem.Heap) (t : Mem.Trace), t.tt.elems h = ss →
        t.String h = (T ss).String ∧ (t.value h).String = (T ss).String)
    ∧ (∀ (h : Mem.Heap), (Mem.T (Mem.variadic h []).2).String (Mem.variadic h []).1 = "/") := by
  refine ⟨rfl, ?_, rfl, ?_, ?_⟩
  · intro hne
    cases ss with
    | nil => exact absurd rfl hne
    | cons a rest =>
      simp only [T, Trace.String, String.intercalate, List.map_cons]
      rw [intercalate_go_slash, join_cons, String.append_assoc]
  · intro h t ht
    simp [Mem.Trace.String, Mem.Trace.value, Trace.String, T, ht]
  · intro h
    rfl

end Rendering

section Names

variable {σ : Type}

theorem entriesSet_keys (l : Entries σ) (name : String) (g : group σ) :
    (entriesSet l name g).map Prod.fst
      = if name ∈ l.map Prod.fst then l.map Prod.fst else l.map Prod.fst ++ [name] := by
  induction l with
  | nil => simp [entriesSet]
  | cons e rest ih =>
    rcases e with ⟨k, v⟩
    by_cases hk : k = name
    · subst hk
      simp [entriesSet]
    · have hk2 : ¬ name = k := fun h => hk h.symm
      simp only [entriesSet, hk, if_false, List.map_cons, ih, List.mem_cons, hk2, false_or]
      split <;> simp

theorem entriesSet_nodup (l : Entries σ) (name : String) (g : group σ)
    (h : (l.map Prod.fst).Nodup) : ((entriesSet l name g).map Prod.fst).Nodup := by
  rw [entriesSet_keys]
  split
  · exact h
  · rename_i hmem
    rw [List.nodup_append]
    refine ⟨h, List.nodup_singleton _, ?_⟩
    intro a ha hb
    rw [List.mem_singleton] at hb
    subst hb
    exact hmem ha

theorem entriesGet_of_mem (l : Entries σ) (h : (l.map Prod.fst).Nodup) (e : String × group σ)
    (he : e ∈ l) : entriesGet l e.1 = some e.2 := by
  induction l with
  | nil => simp at he
  | cons x rest ih =>
    rcases x with ⟨k, v⟩
    rw [List.map_cons, List.nodup_cons] at h
    rcases List.mem_cons.mp he with rfl | he1
    · simp [entriesGet]
    · have hmem : e.1 ∈ rest.map Prod.fst := List.mem_map_of_mem Prod.fst he1
      have hk : ¬ k = e.1 := by
        intro hke
        rw [← hke] at hmem
        exact h.1 hmem
      simp [entriesGet, hk, ih h.2 he1]

theorem NewGroup_names_nodup (m : Mux σ) (name : String) (opts : List (GroupOption σ))
    (h : m.names.Nodup) : (m.NewGroup name opts).names.Nodup := by
  unfold Mux.NewGroup
  split
  · exact h
  · split
    · exact h
    · cases hgg : m.gg with
      | none => simp [Mux.names, Mux.groups, entriesSet]
      | some l =>
        have hl : (l.map Prod.fst).Nodup := by simpa [Mux.names, Mux.groups, hgg] using h
        simpa [Mux.names, Mux.groups] using entriesSet_nodup l name _ hl

theorem Add_names_nodup (m : Mux σ) (name : String) (r : Reporter σ)
    (h : m.names.Nodup) : (m.Add name r).names.Nodup := by
  unfold Mux.Add
  split
  · exact h
  · split
    · exact h
    · rename_i l hgg
      split
      · exact h
      · have hl : (l.map Prod.fst).Nodup := by simpa [Mux.names, Mux.groups, hgg] using h
        simpa [Mux.names, Mux.groups] using entriesSet_nodup l name _ hl

/-- C16, as stated, fails: `NewGroup("")` registers a group under the empty name, the
registry takes a reporter for it and validates. -/
theorem empty_name_is_registered :
    emptyNameMux = configure [ConfigCall.newGroup "" [], ConfigCall.add "" (touch 1)] (New [])
    ∧ emptyNameMux.err = none
    ∧ emptyNameMux.names = [""]
    ∧ mapGet emptyNameMux.gg "" = some { rr := [touch 1], tryAll := false }
    ∧ emptyNameMux.Validate (insertionOrder _) = none :=
  ⟨rfl, rfl, rfl, rfl, rfl⟩

/-- C16, amended: in every registry configured from `New` by any sequence of `NewGroup`,
`Add`, `AddGroup` and `AddGroups` calls no two registered groups share a name, and every
registered group is the one the lookup of its name finds. -/
theorem group_names_unique (ls : List (ErrorLogger σ)) (cs : List (ConfigCall σ)) :
    (configure cs (New (ls.map Logger))).names.Nodup
    ∧ ∀ e ∈ (configure cs (New (ls.map Logger))).groups,
        mapGet (configure cs (New (ls.map Logger))).gg e.1 = some e.2 := by
  have hnodup : (configure cs (New (ls.map Logger))).names.Nodup :=
    configure_preserves (fun m => m.names.Nodup)
      (fun m name opts h => NewGroup_names_nodup m name opts h)
      (fun m name r h => Add_names_nodup m name r h) cs _
      (by simp [Mux.names, Mux.groups, (New_loggers ls).2.1])
  refine ⟨hnodup, ?_⟩
  intro e he
  rw [mapGet_eq_groups]
  exact entriesGet_of_mem _ hnodup e he

end Names

section Logging

variable {σ : Type}

/-- With a logger, the normal path logs each failed call, with its number. -/
theorem reportLoop_logs (l : ErrorLogger σ) (name : String) (tryAll : Bool) (trace : Trace)
    (topic body : String) (rs : List (Reporter σ)) :
    ∀ (i : Nat) (w : σ),
      logs (reportLoop (some l) name tryAll trace topic body i rs w).1
        = ((calls (reportLoop (some l) name tryAll trace topic body i rs w).1).enumFrom i).filterMap
            (failureLog name) := by
  induction rs with
  | nil => intro i w; simp [reportLoop, calls, logs]
  | cons r rest ih =>
    intro i w
    rcases hr : r trace topic body w with ⟨ret, w1⟩
    cases ret with
    | none =>
      cases tryAll with
      | false => simp [reportLoop, hr, calls, logs, failureLog]
      | true =>
        have h := ih (i + 1) w1
        simp only [reportLoop, hr, calls, logs, List.enumFrom_cons, Bool.not_true,
          Bool.false_eq_true, if_false]
        rw [h]
        simp [failureLog]
    | some err =>
      have h := ih (i + 1) (l.LogErrorf err "reporting to group '%s' via reporter no. %d failed"
        [LogArg.str name, LogArg.int i] w1)
      simp only [reportLoop, hr, calls, logs, List.enumFrom_cons]
      rw [h]
      simp [failureLog]

/-- Without a logger, the normal path logs nothing. -/
theorem reportLoop_no_logs (name : String) (tryAll : Bool) (trace : Trace)
    (topic body : String) (rs : List (Reporter σ)) :
    ∀ (i : Nat) (w : σ), logs (reportLoop none name tryAll trace topic body i rs w).1 = [] := by
  induction rs with
  | nil => intro i w; simp [reportLoop, logs]
  | cons r rest ih =>
    intro i w
    rcases hr : r trace topic body w with ⟨ret, w1⟩
    cases ret with
    | none =>
      cases tryAll with
      | false => simp [reportLoop, hr, logs]
      | true => simpa [reportLoop, hr, logs] using ih (i + 1) w1
    | some err => simpa [reportLoop, hr, logs] using ih (i + 1) w1

/-- The call number `j` of the normal path is the call of the reporter number `j` of the
group, with the caller's arguments. -/
theorem reportLoop_calls_prefix (logger : Option (ErrorLogger σ)) (name : String)
    (tryAll : Bool) (trace : Trace) (topic body : String) (rs : List (Reporter σ)) :
    ∀ (i : Nat) (w : σ),
      (calls (reportLoop logger name tryAll trace topic body i rs w).1).map Call.args
        = (rs.take (calls (reportLoop logger name tryAll trace topic body i rs w).1).length).map
            (fun r => (r, trace, topic, body)) := by
  induction rs with
  | nil => intro i w; simp [reportLoop, calls]
  | cons r rest ih =>
    intro i w
    rcases hr : r trace topic body w with ⟨ret, w1⟩
    cases ret with
    | none =>
      cases tryAll with
      | false => simp [reportLoop, hr, calls, Call.args]
      | true => simpa [reportLoop, hr, calls, Call.args] using ih (i + 1) w1
    | some err =>
      cases logger with
      | none => simpa [reportLoop, hr, calls, Call.args] using ih (i + 1) w1
      | some l =>
        simpa [reportLoop, hr, calls, Call.args] using ih (i + 1)
          (l.LogErrorf err "reporting to group '%s' via reporter no. %d failed"
            [LogArg.str name, LogArg.int i] w1)

/-- When the reporters see of the world only `vis`, and the logger leaves `vis` as it is,
the normal path makes the same reporter calls with and without the logger. -/
theorem reportLoop_logger_unseen {τ : Type} (vis : σ → τ) (l : ErrorLogger σ) (name : String)
    (tryAll : Bool) (trace : Trace) (topic body : String) (rs : List (Reporter σ))
    (hlog : ∀ err format args w, vis (l.LogErrorf err format args w) = vis w)
    (hrep : ∀ r ∈ rs, ∀ w1 w2, vis w1 = vis w2 →
      (r trace topic body w1).1 = (r trace topic body w2).1
      ∧ vis (r trace topic body w1).2 = vis (r trace topic body w2).2) :
    ∀ (i : Nat) (w1 w2 : σ), vis w1 = vis w2 →
      calls (reportLoop none name tryAll trace topic body i rs w1).1
        = calls (reportLoop (some l) name tryAll trace topic body i rs w2).1 := by
  induction rs with
  | nil => intro i w1 w2 _; simp [reportLoop, calls]
  | cons r rest ih =>
    intro i w1 w2 hw
    have hr := hrep r (List.mem_cons_self _ _) w1 w2 hw
    have hrest : ∀ r1 ∈ rest, ∀ w1 w2, vis w1 = vis w2 →
        (r1 trace topic body w1).1 = (r1 trace topic body w2).1
        ∧ vis (r1 trace topic body w1).2 = vis (r1 trace topic body w2).2 :=
      fun r1 h1 => hrep r1 (List.mem_cons_of_mem _ h1)
    rcases h1 : r trace topic body w1 with ⟨ret1, v1⟩
    rcases h2 : r trace topic body w2 with ⟨ret2, v2⟩
    rw [h1, h2] at hr
    obtain ⟨hret, hvis⟩ := hr
    simp only at hret hvis
    subst hret
    cases ret1 with
    | none =>
      cases tryAll with
      | false => simp [reportLoop, h1, h2, calls]
      | true => simpa [reportLoop, h1, h2, calls] using ih hrest (i + 1) v1 v2 hvis
    | some err =>
      have hv : vis v1 = vis (l.LogErrorf err
          "reporting to group '%s' via reporter no. %d failed"
          [LogArg.str name, LogArg.int i] v2) := by
        rw [hlog]; exact hvis
      simpa [reportLoop, h1, h2, calls] using ih hrest (i + 1) v1 _ hv

/-- C17, as stated, fails: in `markMux` the second reporter succeeds only after the logger
has run, so with the logger two reporters are called and without it three. -/
theorem report_without_logger_calls_more :
    markMux.nop = false
    ∧ markMux.withoutLogger
        = ((((New []).NewGroup "ops" []).Add "ops" (touchFail 1 "smtp down")).Add "ops"
            (needsMark 2)).Add "ops" (touch 3)
    ∧ (calls (markMux.Report (insertionOrder _) testSite "ops" (T ["super", "yummy"])
          "new guide" "last time" []).1).map Call.reporter = [touchFail 1 "smtp down", needsMark 2]
    ∧ (calls (markMux.withoutLogger.Report (insertionOrder _) testSite "ops"
          (T ["super", "yummy"]) "new guide" "last time" []).1).map Call.reporter
        = [touchFail 1 "smtp down", needsMark 2, touch 3]
    ∧ (calls (markMux.Report (insertionOrder _) testSite "ops" (T ["super", "yummy"])
          "new guide" "last time" []).1).length
        ≠ (calls (markMux.withoutLogger.Report (insertionOrder _) testSite "ops"
          (T ["super", "yummy"]) "new guide" "last time" []).1).length :=
  ⟨rfl, rfl, rfl, rfl, by decide⟩

/-- C17, amended: for a registry that is not a no-op and a registered group `name`, with a
logger `Report` makes one logger call for each reporter call that returned an error, in
the order of the calls, with that error, the format
"reporting to group '%s' via reporter no. %d failed", the group name and the zero-based
number of the call, which is the index of the reporter in the group, and makes no logger
call for a call that returned nil; without a logger it makes no logger call; and when the
reporters cannot see what the logger does to the world (they see `vis` of it, which the
logger leaves as it is), the registry without the logger makes the same reporter calls
in the same order with the same results. -/
theorem report_logs_each_failure (mux : Mux σ) (ro : RangeOrder σ) (site : CallSite)
    (name : String) (g : group σ) (trace : Trace) (topic body : String) (w : σ)
    (hnop : mux.nop = false) (hreg : mapGet mux.gg name = some g) :
    (mux.logger ≠ none →
        logs (mux.Report ro site name trace topic body w).1
          = (calls (mux.Report ro site name trace topic body w).1).enum.filterMap
              (failureLog name))
    ∧ (calls (mux.Report ro site name trace topic body w).1).map Call.args
        = (g.rr.take (calls (mux.Report ro site name trace topic body w).1).length).map
            (fun r => (r, trace, topic, body))
    ∧ (mux.logger = none → logs (mux.Report ro site name trace topic body w).1 = [])
    ∧ logs (mux.withoutLogger.Report ro site name trace topic body w).1 = []
    ∧ (∀ (l : ErrorLogger σ) (τ : Type) (vis : σ → τ), mux.logger = some l →
        (∀ err format args w1, vis (l.LogErrorf err format args w1) = vis w1) →
        (∀ r ∈ g.rr, ∀ w1 w2, vis w1 = vis w2 →
          (r trace topic body w1).1 = (r trace topic body w2).1
          ∧ vis (r trace topic body w1).2 = vis (r trace topic body w2).2) →
        calls (mux.withoutLogger.Report ro site name trace topic body w).1
          = calls (mux.Report ro site name trace topic body w).1) := by
  have hR : mux.Report ro site name trace topic body w
      = reportLoop mux.logger name g.tryAll trace topic body 0 g.rr w := by
    simp [Mux.Report, hnop, hreg]
  have hR0 : mux.withoutLogger.Report ro site name trace topic body w
      = reportLoop none name g.tryAll trace topic body 0 g.rr w := by
    simp [Mux.Report, Mux.withoutLogger, hnop, hreg]
  refine ⟨?_, ?_, ?_, ?_, ?_⟩
  · intro hl
    cases hlog : mux.logger with
    | none => exact absurd hlog hl
    | some l =>
      rw [hR, hlog]
      exact reportLoop_logs l name g.tryAll trace topic body g.rr 0 w
  · rw [hR]
    exact reportLoop_calls_prefix mux.logger name g.tryAll trace topic body g.rr 0 w
  · intro hl
    rw [hR, hl]
    exact reportLoop_no_logs name g.tryAll trace topic body g.rr 0 w
  · rw [hR0]
    exact reportLoop_no_logs name g.tryAll trace topic body g.rr 0 w
  · intro l τ vis hl hlog hrep
    rw [hR, hR0, hl]
    exact reportLoop_logger_unseen vis l name g.tryAll trace topic body g.rr hlog hrep 0 w w rfl

end Logging

section Logging

/-- C17, amended, at `markMux`: the first reporter fails and is logged with the group name
and the number 0; the second succeeds and is not logged. -/
theorem report_logs_each_failure_witness :
    (markMux.nop = false
      ∧ mapGet markMux.gg "ops"
          = some { rr := [touchFail 1 "smtp down", needsMark 2, touch 3], tryAll := false })
    ∧ ((markMux.logger ≠ none →
          logs (markMux.Report (insertionOrder _) testSite "ops" (T ["super", "yummy"])
              "new guide" "last time" []).1
            = (calls (markMux.Report (insertionOrder _) testSite "ops" (T ["super", "yummy"])
                "new guide" "last time" []).1).enum.filterMap (failureLog "ops"))
      ∧ (calls (markMux.Report (insertionOrder _) testSite "ops" (T ["super", "yummy"])
            "new guide" "last time" []).1).map Call.args
          = (({ rr := [touchFail 1 "smtp down", needsMark 2, touch 3], tryAll := false } :
                group (List Int)).rr.take
              (calls (markMux.Report (insertionOrder _) testSite "ops" (T ["super", "yummy"])
                "new guide" "last time" []).1).length).map
              (fun r => (r, T ["super", "yummy"], "new guide", "last time"))
      ∧ (markMux.logger = none →
          logs (markMux.Report (insertionOrder _) testSite "ops" (T ["super", "yummy"])
              "new guide" "last time" []).1 = [])
      ∧ logs (markMux.withoutLogger.Report (insertionOrder _) testSite "ops"
            (T ["super", "yummy"]) "new guide" "last time" []).1 = []
      ∧ (∀ (l : ErrorLogger (List Int)) (τ : Type) (vis : List Int → τ),
          markMux.logger = some l →
          (∀ err format args w1, vis (l.LogErrorf err format args w1) = vis w1) →
          (∀ r ∈ ({ rr := [touchFail 1 "smtp down", needsMark 2, touch 3], tryAll := false } :
                group (List Int)).rr, ∀ w1 w2, vis w1 = vis w2 →
            (r (T ["super", "yummy"]) "new guide" "last time" w1).1
              = (r (T ["super", "yummy"]) "new guide" "last time" w2).1
            ∧ vis (r (T ["super", "yummy"]) "new guide" "last time" w1).2
              = vis (r (T ["super", "yummy"]) "new guide" "last time" w2).2) →
          calls (markMux.withoutLogger.Report (insertionOrder _) testSite "ops"
              (T ["super", "yummy"]) "new guide" "last time" []).1
            = calls (markMux.Report (insertionOrder _) testSite "ops" (T ["super", "yummy"])
              "new guide" "last time" []).1))
    ∧ logs (markMux.Report (insertionOrder _) testSite "ops" (T ["super", "yummy"])
          "new guide" "last time" []).1
        = [("smtp down", "reporting to group '%s' via reporter no. %d failed",
            [LogArg.str "ops", LogArg.int 0])] :=
  ⟨⟨rfl, rfl⟩,
    report_logs_each_failure markMux (insertionOrder _) testSite "ops"
      { rr := [touchFail 1 "smtp down", needsMark 2, touch 3], tryAll := false }
      (T ["super", "yummy"]) "new guide" "last time" [] rfl rfl,
    rfl⟩

end Logging

section ReadOnly

variable {σ : Type}

/-- `Validate` returns nil in one order of the `range` exactly when it does in another. -/
theorem validate_nil_any_order (mux : Mux σ) (ro1 ro2 : RangeOrder σ) :
    mux.Validate ro1 = none ↔ mux.Validate ro2 = none := by
  cases he : mux.err with
  | some e => simp [Mux.Validate, he]
  | none =>
    cases hg : mux.gg with
    | none => simp [Mux.Validate, he, hg]
    | some l =>
      simp only [Mux.Validate, he, hg, validateLoop_eq_none_iff]
      constructor
      · intro h e he2
        exact h e ((ro1.perm l).mem_iff.mpr ((ro2.perm l).mem_iff.mp he2))
      · intro h e he1
        exact h e ((ro2.perm l).mem_iff.mpr ((ro1.perm l).mem_iff.mp he1))

/-- An error of the loop of `Validate` names a visited group without reporter. -/
theorem validateLoop_error (l : Entries σ) (e : GoError) (h : validateLoop l = some e) :
    ∃ x ∈ l, x.2.rr = [] ∧ e = "group '" ++ x.1 ++ "' hasn't any reporter assigend" := by
  induction l with
  | nil => simp [validateLoop] at h
  | cons x rest ih =>
    rcases x with ⟨n, g⟩
    by_cases hg : g.rr = []
    · refine ⟨(n, g), List.mem_cons_self _ _, hg, ?_⟩
      simpa [validateLoop, hg] using h.symm
    · have hlen : ¬ g.rr.length = 0 := fun h0 => hg (List.length_eq_zero.mp h0)
      have h1 : validateLoop rest = some e := by simpa [validateLoop, hlen] using h
      obtain ⟨x, hx, hr, he⟩ := ih h1
      exact ⟨x, List.mem_cons_of_mem _ hx, hr, he⟩

end ReadOnly

section Reach

variable {σ : Type}

theorem entriesGet_mem (l : Entries σ) (name : String) (g : group σ)
    (h : entriesGet l name = some g) : (name, g) ∈ l := by
  induction l with
  | nil => simp [entriesGet] at h
  | cons x rest ih =>
    rcases x with ⟨k, v⟩
    by_cases hk : k = name
    · subst hk
      have hv : v = g := by simpa [entriesGet] using h
      subst hv
      exact List.mem_cons_self _ _
    · have h1 : entriesGet rest name = some g := by simpa [entriesGet, hk] using h
      exact List.mem_cons_of_mem _ (ih h1)

/-- The first iteration of the normal path calls the first reporter of the group. -/
theorem reportLoop_first_call (logger : Option (ErrorLogger σ)) (name : String)
    (tryAll : Bool) (trace : Trace) (topic body : String) (r : Reporter σ)
    (rest : List (Reporter σ)) (i : Nat) (w : σ) :
    ((calls (reportLoop logger name tryAll trace topic body i (r :: rest) w).1).head?).map
      Call.args = some (r, trace, topic, body) := by
  rcases hr : r trace topic body w with ⟨ret, w1⟩
  cases ret with
  | none => cases tryAll <;> simp [reportLoop, hr, calls, Call.args]
  | some err => cases logger <;> simp [reportLoop, hr, calls, Call.args]

end Reach

section Registry

variable {σ : Type}

/-- The loop of `Validate` returns what `validateLoop` does and leaves the world. -/
theorem validateLoopSt_eq (l : Entries σ) (w : σ) :
    validateLoopSt l w = (validateLoop l, w) := by
  induction l with
  | nil => rfl
  | cons e rest ih =>
    rcases e with ⟨n, g⟩
    by_cases hg : g.rr.length = 0
    · simp [validateLoopSt, validateLoop, hg]
    · simp [validateLoopSt, validateLoop, hg, ih]

/-- `Validate` on the registry object returns what `Validate` does on its value and leaves
the world, with the registry in it, as it is. -/
theorem ValidateSt_eq (reg : σ → Mux σ) (ro : RangeOrder σ) (w : σ) :
    Mux.ValidateSt reg ro w = ((reg w).Validate ro, w) := by
  unfold Mux.ValidateSt Mux.Validate
  cases (reg w).err with
  | some e => rfl
  | none =>
    cases (reg w).gg with
    | none => rfl
    | some l => exact validateLoopSt_eq _ w

/-- The inner loop of the misuse path leaves the registry as its reporters do. -/
theorem broadcastGroup_frame (reg : σ → Mux σ) (traceX : Trace) (topicX bodyX : String)
    (rs : List (Reporter σ))
    (hrs : ∀ r ∈ rs, ∀ tr tp bd w1, reg (r tr tp bd w1).2 = reg w1) :
    ∀ (w : σ), reg (broadcastGroup traceX topicX bodyX rs w).2 = reg w := by
  induction rs with
  | nil => intro w; rfl
  | cons r rest ih =>
    intro w
    have h1 := hrs r (List.mem_cons_self _ _) traceX topicX bodyX w
    have h2 := ih (fun r1 hr1 => hrs r1 (List.mem_cons_of_mem _ hr1))
      (r traceX topicX bodyX w).2
    simp only [broadcastGroup]
    rw [h2, h1]

/-- When the reporters and the logger leave the registry `m0` as it is, the loop of the
normal path on the registry object does what the loop on the value `m0` does, and leaves
the registry `m0`. -/
theorem reportLoopSt_eq (reg : σ → Mux σ) (m0 : Mux σ) (name : String) (tryAll : Bool)
    (trace : Trace) (topic body : String) (rs : List (Reporter σ))
    (hrs : ∀ r ∈ rs, ∀ tr tp bd w1, reg (r tr tp bd w1).2 = reg w1)
    (hlog : ∀ l, m0.logger = some l → ∀ err format args w1,
      reg (l.LogErrorf err format args w1) = reg w1) :
    ∀ (i : Nat) (w : σ), reg w = m0 →
      reportLoopSt reg name tryAll trace topic body i rs w
          = reportLoop m0.logger name tryAll trace topic body i rs w
      ∧ reg (reportLoopSt reg name tryAll trace topic body i rs w).2 = m0 := by
  induction rs with
  | nil => intro i w hw; exact ⟨rfl, hw⟩
  | cons r rest ih =>
    intro i w hw
    have hrest : ∀ r1 ∈ rest, ∀ tr tp bd w1, reg (r1 tr tp bd w1).2 = reg w1 :=
      fun r1 hr1 => hrs r1 (List.mem_cons_of_mem _ hr1)
    have hr := hrs r (List.mem_cons_self _ _) trace topic body w
    rcases hres : r trace topic body w with ⟨ret, w1⟩
    rw [hres] at hr
    have hw1 : reg w1 = m0 := hr.trans hw
    cases ret with
    | none =>
      cases tryAll with
      | false => exact ⟨by simp [reportLoopSt, reportLoop, hres], by simpa [reportLoopSt, hres] using hw1⟩
      | true =>
        have h := ih hrest (i + 1) w1 hw1
        constructor
        · simp [reportLoopSt, reportLoop, hres, h.1]
        · simpa [reportLoopSt, hres] using h.2
    | some err =>
      cases hl : m0.logger with
      | none =>
        have hl1 : (reg w1).logger = none := by rw [hw1, hl]
        have h := ih hrest (i + 1) w1 hw1
        constructor
        · simp [reportLoopSt, reportLoop, hres, hl1, h.1, hl]
        · simpa [reportLoopSt, hres, hl1] using h.2
      | some l =>
        have hl1 : (reg w1).logger = some l := by rw [hw1, hl]
        have hw2 : reg (l.LogErrorf err "reporting to group '%s' via reporter no. %d failed"
            [LogArg.str name, LogArg.int i] w1) = m0 := (hlog l hl _ _ _ w1).trans hw1
        have h := ih hrest (i + 1) _ hw2
        constructor
        · simp [reportLoopSt, reportLoop, hres, hl1, h.1, hl]
        · simpa [reportLoopSt, hres, hl1] using h.2

/-- When the reporters leave the registry `m0` as it is, the outer loop of the misuse path
on the registry object leaves the registry `m0`. -/
theorem broadcastAllSt_frame (reg : σ → Mux σ) (m0 : Mux σ) (traceX : Trace)
    (topicX bodyX : String)
    (hrep : ∀ e ∈ m0.groups, ∀ r ∈ e.2.rr, ∀ tr tp bd w1, reg (r tr tp bd w1).2 = reg w1)
    (ks : List String) :
    ∀ (w : σ), reg w = m0 → reg (broadcastAllSt reg traceX topicX bodyX ks w).2 = m0 := by
  induction ks with
  | nil => intro w hw; exact hw
  | cons k rest ih =>
    intro w hw
    cases hg : mapGet (reg w).gg k with
    | none => simpa [broadcastAllSt, hg] using ih w hw
    | some g =>
      have hmem : (k, g) ∈ m0.groups := by
        rw [hw, mapGet_eq_groups] at hg
        exact entriesGet_mem _ k g hg
      have h1 : reg (broadcastGroup traceX topicX bodyX g.rr w).2 = m0 :=
        (broadcastGroup_frame reg traceX topicX bodyX g.rr (hrep (k, g) hmem) w).trans hw
      simpa [broadcastAllSt, hg] using ih _ h1

/-- When the reporters leave the registry `m0` as it is and the lookup of every visited
name finds the visited group, the outer loop of the misuse path on the registry object
does what the loop on the entries does. -/
theorem broadcastAllSt_eq (reg : σ → Mux σ) (m0 : Mux σ) (traceX : Trace)
    (topicX bodyX : String)
    (hrep : ∀ e ∈ m0.groups, ∀ r ∈ e.2.rr, ∀ tr tp bd w1, reg (r tr tp bd w1).2 = reg w1)
    (es : Entries σ) (hes : ∀ e ∈ es, mapGet m0.gg e.1 = some e.2) :
    ∀ (w : σ), reg w = m0 →
      broadcastAllSt reg traceX topicX bodyX (es.map Prod.fst) w
        = broadcastAll traceX topicX bodyX es w := by
  induction es with
  | nil => intro w _; rfl
  | cons e rest ih =>
    intro w hw
    rcases e with ⟨k, g⟩
    have hg : mapGet (reg w).gg k = some g := by
      rw [hw]; exact hes (k, g) (List.mem_cons_self _ _)
    have hmem : (k, g) ∈ m0.groups := by
      have hg0 := hes (k, g) (List.mem_cons_self _ _)
      rw [mapGet_eq_groups] at hg0
      exact entriesGet_mem _ k g hg0
    have h1 : reg (broadcastGroup traceX topicX bodyX g.rr w).2 = m0 :=
      (broadcastGroup_frame reg traceX topicX bodyX g.rr (hrep (k, g) hmem) w).trans hw
    have h2 := ih (fun e1 he1 => hes e1 (List.mem_cons_of_mem _ he1)) _ h1
    simp [broadcastAllSt, broadcastAll, hg, h2]

/-- When the reporters and the logger of the registry leave it as it is, `Report` leaves
it as it is. -/
theorem ReportSt_frame (reg : σ → Mux σ) (ro : RangeOrder σ) (site : CallSite)
    (name : String) (trace : Trace) (topic body : String) (w : σ)
    (hrep : ∀ e ∈ (reg w).groups, ∀ r ∈ e.2.rr, ∀ tr tp bd w1, reg (r tr tp bd w1).2 = reg w1)
    (hlog : ∀ l, (reg w).logger = some l → ∀ err format args w1,
      reg (l.LogErrorf err format args w1) = reg w1) :
    reg (Mux.ReportSt reg ro site name trace topic body w).2 = reg w := by
  unfold Mux.ReportSt
  cases hnop : (reg w).nop with
  | true => simp
  | false =>
    cases hg : mapGet (reg w).gg name with
    | some g =>
      have hmem : (name, g) ∈ (reg w).groups := by
        rw [mapGet_eq_groups] at hg
        exact entriesGet_mem _ name g hg
      simpa using (reportLoopSt_eq reg (reg w) name g.tryAll trace topic body g.rr
        (hrep (name, g) hmem) hlog 0 w rfl).2
    | none =>
      cases hl : (reg w).logger with
      | none =>
        simpa using broadcastAllSt_frame reg (reg w) _ _ _ hrep _ w rfl
      | some l =>
        have hw1 := hlog l hl
          ("bad github.com/f9a/ert/mux.Report call from " ++ site.file ++ ":"
            ++ toString site.line ++ ": Given report group '" ++ name ++ "' doesn't exists")
          "invalid report" [] w
        simpa using broadcastAllSt_frame reg (reg w) _ _ _ hrep _ _ hw1

/-- When the reporters and the logger of the registry leave it as it is and no two groups
share a name, `Report` on the registry object does what `Report` on its value does. -/
theorem ReportSt_eq (reg : σ → Mux σ) (ro : RangeOrder σ) (site : CallSite)
    (name : String) (trace : Trace) (topic body : String) (w : σ)
    (hrep : ∀ e ∈ (reg w).groups, ∀ r ∈ e.2.rr, ∀ tr tp bd w1, reg (r tr tp bd w1).2 = reg w1)
    (hlog : ∀ l, (reg w).logger = some l → ∀ err format args w1,
      reg (l.LogErrorf err format args w1) = reg w1)
    (hnames : (reg w).names.Nodup) :
    Mux.ReportSt reg ro site name trace topic body w
      = (reg w).Report ro site name trace topic body w := by
  have hes : ∀ e ∈ ro.order (reg w).groups, mapGet (reg w).gg e.1 = some e.2 := by
    intro e he
    rw [mapGet_eq_groups]
    exact entriesGet_of_mem _ hnames e ((ro.perm _).mem_iff.mp he)
  have hvis : (match (reg w).gg with
      | none => ([] : Entries σ)
      | some l => ro.order l) = ro.order (reg w).groups := by
    cases hgg : (reg w).gg with
    | none =>
      have h0 : (ro.order []).Perm [] := ro.perm []
      simp [Mux.groups, hgg, List.Perm.eq_nil h0]
    | some l => simp [Mux.groups, hgg]
  unfold Mux.ReportSt Mux.Report
  cases hnop : (reg w).nop with
  | true => simp
  | false =>
    cases hg : mapGet (reg w).gg name with
    | some g =>
      have hmem : (name, g) ∈ (reg w).groups := by
        rw [mapGet_eq_groups] at hg
        exact entriesGet_mem _ name g hg
      simpa using (reportLoopSt_eq reg (reg w) name g.tryAll trace topic body g.rr
        (hrep (name, g) hmem) hlog 0 w rfl).1
    | none =>
      cases hl : (reg w).logger with
      | none =>
        have h := broadcastAllSt_eq reg (reg w) (T ["github.com", "f9a", "ert", "mux.Report"])
          ("ERROR: ert: Wrong report group '" ++ name ++ "'")
          (bodyX site.file site.line name trace) hrep _ hes w rfl
        simp only [Bool.false_eq_true, if_false, hvis]
        exact h
      | some l =>
        have hw1 := hlog l hl
          ("bad github.com/f9a/ert/mux.Report call from " ++ site.file ++ ":"
            ++ toString site.line ++ ": Given report group '" ++ name ++ "' doesn't exists")
          "invalid report" [] w
        have h := broadcastAllSt_eq reg (reg w) (T ["github.com", "f9a", "ert", "mux.Report"])
          ("ERROR: ert: Wrong report group '" ++ name ++ "'")
          (bodyX site.file site.line name trace) hrep _ hes _ hw1
        simp only [Bool.false_eq_true, if_false, hvis, hw1]
        rw [h]

end Registry

section Registry

variable {σ : Type}

/-- C18, as stated, fails, twice.  With two groups without reporter, two calls of
`Validate` on the unchanged registry return different errors when the `range` visits "a"
first in one and "b" first in the other.  And a `Report` to "ops" whose reporter calls
`mux.NewGroup("late")` on its own registry leaves a registry with one group more. -/
theorem validate_twice_differs :
    (Mux.ValidateSt (fun (_ : List Int) => twoEmptyMux) (insertionOrder _) []).2 = []
    ∧ (Mux.ValidateSt (fun (_ : List Int) => twoEmptyMux) (insertionOrder _) []).1
        = some "group 'a' hasn't any reporter assigend"
    ∧ (Mux.ValidateSt (fun (_ : List Int) => twoEmptyMux) (reverseOrder _)
        (Mux.ValidateSt (fun (_ : List Int) => twoEmptyMux) (insertionOrder _) []).2).1
        = some "group 'b' hasn't any reporter assigend"
    ∧ (Mux.ValidateSt (fun (_ : List Int) => twoEmptyMux) (insertionOrder _) []).1
        ≠ (Mux.ValidateSt (fun (_ : List Int) => twoEmptyMux) (reverseOrder _)
            (Mux.ValidateSt (fun (_ : List Int) => twoEmptyMux) (insertionOrder _) []).2).1
    ∧ selfReg [] = selfMux
    ∧ mapGet (selfReg []).gg "ops" = some { rr := [registers "late"], tryAll := false }
    ∧ (selfReg []).names = ["ops"]
    ∧ (Mux.ReportSt selfReg (insertionOrder _) testSite "ops" (T ["super", "yummy"])
        "new guide" "last time" []).2 = ["late"]
    ∧ (selfReg (Mux.ReportSt selfReg (insertionOrder _) testSite "ops" (T ["super", "yummy"])
        "new guide" "last time" []).2).names = ["ops", "late"]
    ∧ (selfReg (Mux.ReportSt selfReg (insertionOrder _) testSite "ops" (T ["super", "yummy"])
        "new guide" "last time" []).2).names ≠ (selfReg []).names :=
  ⟨rfl, rfl, rfl, by decide, rfl, rfl, rfl, rfl, rfl, by decide⟩

/-- C18, amended: `Validate` leaves the world, and the registry in it, as it is.  `Report`
itself writes nothing to the registry: when the reporters and the logger of the registry
leave it as it is, the registry after `Report` (groups, reporters, policies, recorded
error, logger, no-op flag) is the registry before, for every name and whatever the
reporters return, a `Validate` after it returns what it returned before, and, names being
unique, `Report` does what it does on the value of the registry.  Hence two calls of
`Validate` in a row both return nil or both return an error, the same error when a
configuration error is recorded or no group is registered or the two `range` loops visit
the groups in the same order, and otherwise each the error of some registered group
without reporter. -/
theorem validate_report_read_only (reg : σ → Mux σ) (ro1 ro2 : RangeOrder σ) (site : CallSite)
    (name : String) (trace : Trace) (topic body : String) (w : σ) :
    Mux.ValidateSt reg ro1 w = ((reg w).Validate ro1, w)
    ∧ ((∀ e ∈ (reg w).groups, ∀ r ∈ e.2.rr, ∀ tr tp bd w1, reg (r tr tp bd w1).2 = reg w1) →
        (∀ l, (reg w).logger = some l → ∀ err format args w1,
          reg (l.LogErrorf err format args w1) = reg w1) →
        reg (Mux.ReportSt reg ro1 site name trace topic body w).2 = reg w
        ∧ (Mux.ValidateSt reg ro2 (Mux.ReportSt reg ro1 site name trace topic body w).2).1
            = (Mux.ValidateSt reg ro2 w).1
        ∧ ((reg w).names.Nodup →
            Mux.ReportSt reg ro1 site name trace topic body w
              = (reg w).Report ro1 site name trace topic body w))
    ∧ (Mux.ValidateSt reg ro1 (Mux.ValidateSt reg ro1 w).2).1 = (Mux.ValidateSt reg ro1 w).1
    ∧ ((Mux.ValidateSt reg ro1 w).1 = none
        ↔ (Mux.ValidateSt reg ro2 (Mux.ValidateSt reg ro1 w).2).1 = none)
    ∧ (∀ e, (reg w).err = some e →
        (Mux.ValidateSt reg ro1 w).1 = some e
        ∧ (Mux.ValidateSt reg ro2 (Mux.ValidateSt reg ro1 w).2).1 = some e)
    ∧ ((reg w).err = none → (reg w).gg = none →
        (Mux.ValidateSt reg ro1 w).1 = some "at least on group must be defined"
        ∧ (Mux.ValidateSt reg ro2 (Mux.ValidateSt reg ro1 w).2).1
            = some "at least on group must be defined")
    ∧ ((reg w).err = none → (reg w).gg ≠ none →
        ∀ e, (Mux.ValidateSt reg ro2 (Mux.ValidateSt reg ro1 w).2).1 = some e →
          ∃ x ∈ (reg w).groups, x.2.rr = []
            ∧ e = "group '" ++ x.1 ++ "' hasn't any reporter assigend") := by
  refine ⟨ValidateSt_eq reg ro1 w, ?_, ?_, ?_, ?_, ?_, ?_⟩
  · intro hrep hlog
    have hf := ReportSt_frame reg ro1 site name trace topic body w hrep hlog
    refine ⟨hf, ?_, ?_⟩
    · simp only [ValidateSt_eq, hf]
    · intro hnames
      exact ReportSt_eq reg ro1 site name trace topic body w hrep hlog hnames
  · simp only [ValidateSt_eq]
  · simp only [ValidateSt_eq]
    exact validate_nil_any_order (reg w) ro1 ro2
  · intro e he
    simp [ValidateSt_eq, Mux.Validate, he]
  · intro he hg
    simp [ValidateSt_eq, Mux.Validate, he, hg]
  · intro he hg e hv
    cases hgg : (reg w).gg with
    | none => exact absurd hgg hg
    | some l =>
      have hv1 : validateLoop (ro2.order l) = some e := by
        simpa [ValidateSt_eq, Mux.Validate, he, hgg] using hv
      obtain ⟨x, hx, hr, hmsg⟩ := validateLoop_error _ e hv1
      refine ⟨x, ?_, hr, hmsg⟩
      have := (ro2.perm l).mem_iff.mp hx
      simpa [Mux.groups, hgg] using this

/-- C18, amended, at the registry of `TestERT` lying in a world where reporters could
register groups: its reporters only record that they ran, so after `Report` the registry
is the one before and the world records `[1, 2]`. -/
theorem validate_report_read_only_witness :
    ((∀ e ∈ (pairReg ([], [])).groups, ∀ r ∈ e.2.rr, ∀ tr tp bd w1,
        pairReg (r tr tp bd w1).2 = pairReg w1)
      ∧ (∀ l, (pairReg ([], [])).logger = some l → ∀ err format args w1,
        pairReg (l.LogErrorf err format args w1) = pairReg w1))
    ∧ (pairReg (Mux.ReportSt pairReg (insertionOrder _) testSite "_why" (T ["super", "yummy"])
          "new guide" "last time" ([], [])).2 = pairReg ([], [])
      ∧ (Mux.ValidateSt pairReg (reverseOrder _)
          (Mux.ReportSt pairReg (insertionOrder _) testSite "_why" (T ["super", "yummy"])
            "new guide" "last time" ([], [])).2).1
          = (Mux.ValidateSt pairReg (reverseOrder _) ([], [])).1
      ∧ ((pairReg ([], [])).names.Nodup →
          Mux.ReportSt pairReg (insertionOrder _) testSite "_why" (T ["super", "yummy"])
              "new guide" "last time" ([], [])
            = (pairReg ([], [])).Report (insertionOrder _) testSite "_why"
              (T ["super", "yummy"]) "new guide" "last time" ([], [])))
    ∧ (Mux.ReportSt pairReg (insertionOrder _) testSite "_why" (T ["super", "yummy"])
          "new guide" "last time" ([], [])).2 = ([1, 2], []) := by
  have hrep : ∀ e ∈ (pairReg ([], [])).groups, ∀ r ∈ e.2.rr, ∀ tr tp bd w1,
      pairReg (r tr tp bd w1).2 = pairReg w1 := by
    intro e he r hr tr tp bd w1
    have he1 : e = ("_why", { rr := [touchOnly 1, touchOnly 2], tryAll := true }) :=
      List.eq_of_mem_singleton he
    subst he1
    rcases List.mem_cons.mp hr with h1 | h2
    · subst h1; rfl
    · have h3 : r = touchOnly 2 := List.eq_of_mem_singleton h2
      subst h3; rfl
  have hlog : ∀ l, (pairReg ([], [])).logger = some l → ∀ err format args w1,
      pairReg (l.LogErrorf err format args w1) = pairReg w1 := by
    intro l hl
    exact Option.noConfusion hl
  exact ⟨⟨hrep, hlog⟩,
    (validate_report_read_only pairReg (insertionOrder _) (reverseOrder _) testSite "_why"
      (T ["super", "yummy"]) "new guide" "last time" ([], [])).2.1 hrep hlog,
    rfl⟩

end Registry

section Reached

variable {σ : Type}

/-- The first event of the normal path is the call of the first reporter at the world
`Report` starts in, with what the reporter returns there. -/
theorem reportLoop_head_event (logger : Option (ErrorLogger σ)) (name : String)
    (tryAll : Bool) (trace : Trace) (topic body : String) (r : Reporter σ)
    (rest : List (Reporter σ)) (i : Nat) (w : σ) :
    (reportLoop logger name tryAll trace topic body i (r :: rest) w).1.head?
      = some (Event.call r trace topic body (r trace topic body w).1) := by
  rcases hr : r trace topic body w with ⟨ret, w1⟩
  cases ret with
  | none => cases tryAll <;> simp [reportLoop, hr]
  | some err => cases logger <;> simp [reportLoop, hr]

/-- Without try-all, when the first reporter returns nil the normal path is that one call
and leaves the world the reporter leaves. -/
theorem reportLoop_stops_at_first (logger : Option (ErrorLogger σ)) (name : String)
    (trace : Trace) (topic body : String) (r : Reporter σ) (rest : List (Reporter σ))
    (i : Nat) (w : σ) (hr : (r trace topic body w).1 = none) :
    reportLoop logger name false trace topic body i (r :: rest) w
      = ([Event.call r trace topic body none], (r trace topic body w).2) := by
  rcases hres : r trace topic body w with ⟨ret, w1⟩
  rw [hres] at hr
  simp only at hr
  subst hr
  simp [reportLoop, hres]

/-- The inner loop of the misuse path leaves the world that running the reporters one
after the other leaves. -/
theorem broadcastGroup_world (traceX : Trace) (topicX bodyX : String)
    (rs : List (Reporter σ)) :
    ∀ (w : σ), (broadcastGroup traceX topicX bodyX rs w).2
      = rs.foldl (fun w1 r => (r traceX topicX bodyX w1).2) w := by
  induction rs with
  | nil => intro w; rfl
  | cons r rest ih => intro w; simpa [broadcastGroup] using ih _

/-- The misuse path leaves the world that running every reporter of every visited group,
one after the other, leaves. -/
theorem broadcastAll_world (traceX : Trace) (topicX bodyX : String) (es : Entries σ) :
    ∀ (w : σ), (broadcastAll traceX topicX bodyX es w).2
      = (es.flatMap (fun e => e.2.rr)).foldl (fun w1 r => (r traceX topicX bodyX w1).2) w := by
  induction es with
  | nil => intro w; rfl
  | cons e rest ih =>
    intro w
    rcases e with ⟨n, g⟩
    simp only [broadcastAll, List.flatMap_cons, List.foldl_append]
    rw [ih, broadcastGroup_world]

/-- The world `Report` leaves for a name that is not registered. -/
theorem report_unknown_world (mux : Mux σ) (ro : RangeOrder σ) (site : CallSite)
    (name : String) (trace : Trace) (topic body : String) (w : σ)
    (hnop : mux.nop = false) (hreg : mapGet mux.gg name = none) :
    (mux.Report ro site name trace topic body w).2
      = ((ro.order mux.groups).flatMap (fun e => e.2.rr)).foldl
          (fun w1 r => (r (T ["github.com", "f9a", "ert", "mux.Report"])
            ("ERROR: ert: Wrong report group '" ++ name ++ "'")
            (bodyX site.file site.line name trace) w1).2)
          (match mux.logger with
            | none => w
            | some l => l.LogErrorf
                ("bad github.com/f9a/ert/mux.Report call from " ++ site.file ++ ":"
                  ++ toString site.line ++ ": Given report group '" ++ name
                  ++ "' doesn't exists") "invalid report" [] w) := by
  have hvis : (match mux.gg with
      | none => ([] : Entries σ)
      | some l => ro.order l) = ro.order mux.groups := by
    cases hgg : mux.gg with
    | none =>
      have h0 : (ro.order []).Perm [] := ro.perm []
      simp [Mux.groups, hgg, List.Perm.eq_nil h0]
    | some l => simp [Mux.groups, hgg]
  cases hl : mux.logger with
  | none => simp [Mux.Report, hnop, hreg, hl, hvis, broadcastAll_world]
  | some l => simp [Mux.Report, hnop, hreg, hl, hvis, broadcastAll_world]

/-- C19, as stated, fails: `Add` takes a nil reporter and `Validate` counts it, so
`New().NewGroup("ops").Add("ops", nil)` validates, and `Report`, to "ops" or to a name
that is not registered, panics in the call of nil without having called a reporter. -/
theorem nil_reporter_validates_and_panics :
    nilMux.err = none
    ∧ Nilable.mapGet nilMux.gg "ops" = some { rr := [none], tryAll := false }
    ∧ nilMux.Validate (Nilable.insertionOrder _) = none
    ∧ nilMux.Report (Nilable.insertionOrder _) testSite "ops" (T ["super", "yummy"])
        "new guide" "last time" [] = ([], [], Nilable.Ending.panicked)
    ∧ calls (nilMux.Report (Nilable.insertionOrder _) testSite "ops" (T ["super", "yummy"])
        "new guide" "last time" []).1 = []
    ∧ nilMux.Report (Nilable.insertionOrder _) testSite "nobody" (T ["super", "yummy"])
        "new guide" "last time" [] = ([], [], Nilable.Ending.panicked) :=
  ⟨rfl, rfl, rfl, rfl, rfl, rfl⟩

/-- C19, amended: on a registry configured from `New` whose reporters are functions that
return, and for which `Validate` returns nil, `Report` calls at least one reporter for
every name, trace, topic and body.  For a registered name the first thing `Report` does
is run the first reporter of that group at the world it starts in, with the caller's
arguments; when that reporter returns nil and the group is not try-all, this call is all
`Report` does and it leaves the world the reporter leaves.  For a name that is not
registered every reporter of every registered group is called, each group having at
least one, and the world `Report` leaves is the one that running all of them, group by
group in the order of the `range`, leaves. -/
theorem validated_registry_reaches_someone (ls : List (ErrorLogger σ))
    (cs : List (ConfigCall σ)) (ro1 ro2 : RangeOrder σ) (site : CallSite) (name : String)
    (trace : Trace) (topic body : String) (w : σ)
    (hval : (configure cs (New (ls.map Logger))).Validate ro1 = none) :
    calls ((configure cs (New (ls.map Logger))).Report ro2 site name trace topic body w).1 ≠ []
    ∧ (∀ g, mapGet (configure cs (New (ls.map Logger))).gg name = some g →
        ∃ r rest, g.rr = r :: rest
          ∧ ((configure cs (New (ls.map Logger))).Report ro2 site name trace topic body w).1.head?
              = some (Event.call r trace topic body (r trace topic body w).1)
          ∧ ((calls ((configure cs (New (ls.map Logger))).Report ro2 site name trace topic
              body w).1).head?).map Call.args = some (r, trace, topic, body)
          ∧ ((r trace topic body w).1 = none → g.tryAll = false →
              (configure cs (New (ls.map Logger))).Report ro2 site name trace topic body w
                = ([Event.call r trace topic body none], (r trace topic body w).2)))
    ∧ (mapGet (configure cs (New (ls.map Logger))).gg name = none →
        (∀ e ∈ (configure cs (New (ls.map Logger))).groups,
          e.2.rr ≠ []
          ∧ ∀ r ∈ e.2.rr, r ∈ (calls ((configure cs (New (ls.map Logger))).Report ro2 site
              name trace topic body w).1).map Call.reporter)
        ∧ ((configure cs (New (ls.map Logger))).Report ro2 site name trace topic body w).2
            = ((ro2.order (configure cs (New (ls.map Logger))).groups).flatMap
                (fun e => e.2.rr)).foldl
                (fun w1 r => (r (T ["github.com", "f9a", "ert", "mux.Report"])
                  ("ERROR: ert: Wrong report group '" ++ name ++ "'")
                  (bodyX site.file site.line name trace) w1).2)
                (match (configure cs (New (ls.map Logger))).logger with
                  | none => w
                  | some l => l.LogErrorf
                      ("bad github.com/f9a/ert/mux.Report call from " ++ site.file ++ ":"
                        ++ toString site.line ++ ": Given report group '" ++ name
                        ++ "' doesn't exists") "invalid report" [] w)) := by
  have hfresh := New_loggers ls
  have hv := (validate_nil_iff_of_fresh _ hfresh.1 hfresh.2.1 cs ro1).mp hval
  obtain ⟨_, hne, hall⟩ := hv
  have hnop : (configure cs (New (ls.map Logger))).nop = false :=
    (configure_nop cs _).trans hfresh.2.2
  generalize configure cs (New (ls.map Logger)) = m at hne hall hnop ⊢
  have hknown : ∀ g, mapGet m.gg name = some g →
      ∃ r rest, g.rr = r :: rest
        ∧ (m.Report ro2 site name trace topic body w).1.head?
            = some (Event.call r trace topic body (r trace topic body w).1)
        ∧ ((calls (m.Report ro2 site name trace topic body w).1).head?).map Call.args
            = some (r, trace, topic, body)
        ∧ ((r trace topic body w).1 = none → g.tryAll = false →
            m.Report ro2 site name trace topic body w
              = ([Event.call r trace topic body none], (r trace topic body w).2)) := by
    intro g hreg
    have hmem : (name, g) ∈ m.groups := by
      rw [mapGet_eq_groups] at hreg
      exact entriesGet_mem _ name g hreg
    have hrr : g.rr ≠ [] := hall (name, g) hmem
    cases hg : g.rr with
    | nil => exact absurd hg hrr
    | cons r rest =>
      have hR : m.Report ro2 site name trace topic body w
          = reportLoop m.logger name g.tryAll trace topic body 0 (r :: rest) w := by
        simp [Mux.Report, hnop, hreg, hg]
      refine ⟨r, rest, rfl, ?_, ?_, ?_⟩
      · rw [hR]
        exact reportLoop_head_event m.logger name g.tryAll trace topic body r rest 0 w
      · rw [hR]
        exact reportLoop_first_call m.logger name g.tryAll trace topic body r rest 0 w
      · intro hret hpol
        rw [hR, hpol]
        exact reportLoop_stops_at_first m.logger name trace topic body r rest 0 w hret
  have hunknown : mapGet m.gg name = none →
      ∀ e ∈ m.groups, e.2.rr ≠ []
        ∧ ∀ r ∈ e.2.rr, r ∈ (calls (m.Report ro2 site name trace topic body w).1).map
            Call.reporter := by
    intro hreg e he
    refine ⟨hall e he, ?_⟩
    intro r hr
    have hargs := report_unknown_calls m ro2 site name trace topic body w hnop hreg
    have hrep : (calls (m.Report ro2 site name trace topic body w).1).map Call.reporter
        = (ro2.order m.groups).flatMap (fun e => e.2.rr) := by
      have h1 := congrArg (List.map (fun a : Reporter σ × Trace × String × String => a.1)) hargs
      simpa [Call.args, Function.comp_def] using h1
    rw [hrep, List.mem_flatMap]
    exact ⟨e, (ro2.perm m.groups).mem_iff.mpr he, hr⟩
  refine ⟨?_, hknown, fun hreg => ⟨hunknown hreg,
    report_unknown_world m ro2 site name trace topic body w hnop hreg⟩⟩
  cases hreg : mapGet m.gg name with
  | some g =>
    obtain ⟨r, rest, _, _, hhead, _⟩ := hknown g hreg
    intro hnil
    rw [hnil] at hhead
    simp at hhead
  | none =>
    cases hgs : m.groups with
    | nil => exact absurd hgs hne
    | cons e rest =>
      have he : e ∈ m.groups := by rw [hgs]; exact List.mem_cons_self _ _
      obtain ⟨hrr, hin⟩ := hunknown hreg e he
      cases hr : e.2.rr with
      | nil => exact absurd hr hrr
      | cons r rs =>
        have hmem := hin r (by rw [hr]; exact List.mem_cons_self _ _)
        intro hnil
        rw [hnil] at hmem
        simp at hmem

end Reached

section Reached

/-- C19, amended, at `fallbackMux` built by `fallbackCalls`: the registry validates; a
`Report` to the registered "ops" first runs its first reporter, which fails, then the
second, and leaves `[1, 2]`; a `Report` to the unknown "nobody" runs all three and
leaves `[1, 2, 3]`. -/
theorem validated_registry_reaches_someone_witness :
    (configure fallbackCalls (New (([] : List (ErrorLogger (List Int))).map Logger))).Validate
        (insertionOrder _) = none
    ∧ calls ((configure fallbackCalls
        (New (([] : List (ErrorLogger (List Int))).map Logger))).Report (reverseOrder _)
          testSite "ops" (T ["super", "yummy"]) "new guide" "last time" []).1 ≠ []
    ∧ (∃ r rest,
        ({ rr := [touchFail 1 "smtp down", touch 2, touch 3], tryAll := false } :
            group (List Int)).rr = r :: rest
        ∧ ((configure fallbackCalls
            (New (([] : List (ErrorLogger (List Int))).map Logger))).Report (reverseOrder _)
              testSite "ops" (T ["super", "yummy"]) "new guide" "last time" []).1.head?
            = some (Event.call r (T ["super", "yummy"]) "new guide" "last time"
                (r (T ["super", "yummy"]) "new guide" "last time" []).1)
        ∧ ((calls ((configure fallbackCalls
            (New (([] : List (ErrorLogger (List Int))).map Logger))).Report (reverseOrder _)
              testSite "ops" (T ["super", "yummy"]) "new guide" "last time" []).1).head?).map
              Call.args = some (r, T ["super", "yummy"], "new guide", "last time")
        ∧ ((r (T ["super", "yummy"]) "new guide" "last time" []).1 = none →
            ({ rr := [touchFail 1 "smtp down", touch 2, touch 3], tryAll := false } :
              group (List Int)).tryAll = false →
            (configure fallbackCalls
              (New (([] : List (ErrorLogger (List Int))).map Logger))).Report (reverseOrder _)
                testSite "ops" (T ["super", "yummy"]) "new guide" "last time" []
              = ([Event.call r (T ["super", "yummy"]) "new guide" "last time" none],
                  (r (T ["super", "yummy"]) "new guide" "last time" []).2)))
    ∧ calls ((configure fallbackCalls
        (New (([] : List (ErrorLogger (List Int))).map Logger))).Report (reverseOrder _)
          testSite "nobody" (T ["super", "yummy"]) "new guide" "last time" []).1 ≠ []
    ∧ configure fallbackCalls (New (([] : List (ErrorLogger (List Int))).map Logger))
        = fallbackMux
    ∧ (fallbackMux.Report (reverseOrder _) testSite "ops" (T ["super", "yummy"])
          "new guide" "last time" []).2 = [1, 2]
    ∧ (fallbackMux.Report (reverseOrder _) testSite "nobody" (T ["super", "yummy"])
          "new guide" "last time" []).2 = [1, 2, 3] :=
  ⟨rfl,
    (validated_registry_reaches_someone [] fallbackCalls (insertionOrder _) (reverseOrder _)
      testSite "ops" (T ["super", "yummy"]) "new guide" "last time" [] rfl).1,
    (validated_registry_reaches_someone [] fallbackCalls (insertionOrder _) (reverseOrder _)
      testSite "ops" (T ["super", "yummy"]) "new guide" "last time" [] rfl).2.1 _ rfl,
    (validated_registry_reaches_someone [] fallbackCalls (insertionOrder _) (reverseOrder _)
      testSite "nobody" (T ["super", "yummy"]) "new guide" "last time" [] rfl).1,
    rfl, rfl, rfl⟩

end Reached

section NilReporters

variable {σ : Type}

theorem nilable_entriesGet_ofEntries (l : Entries σ) (name : String) :
    Nilable.entriesGet (Nilable.ofEntries l) name
      = (entriesGet l name).map Nilable.ofGroup := by
  induction l with
  | nil => rfl
  | cons e rest ih =>
    rcases e with ⟨k, v⟩
    by_cases hk : k = name
    · simp [Nilable.ofEntries, Nilable.entriesGet, entriesGet, hk]
    · have ih1 : Nilable.entriesGet (List.map (fun e => (e.1, Nilable.ofGroup e.2)) rest) name
          = (entriesGet rest name).map Nilable.ofGroup := ih
      simp [Nilable.ofEntries, Nilable.entriesGet, entriesGet, hk, ih1]

theorem nilable_entriesSet_ofEntries (l : Entries σ) (name : String) (g : group σ) :
    Nilable.entriesSet (Nilable.ofEntries l) name (Nilable.ofGroup g)
      = Nilable.ofEntries (entriesSet l name g) := by
  induction l with
  | nil => rfl
  | cons e rest ih =>
    rcases e with ⟨k, v⟩
    have ih1 : Nilable.entriesSet (List.map (fun e => (e.1, Nilable.ofGroup e.2)) rest) name
        (Nilable.ofGroup g)
        = List.map (fun e => (e.1, Nilable.ofGroup e.2)) (entriesSet rest name g) := ih
    by_cases hk : k = name
    · simp [Nilable.ofEntries, Nilable.entriesSet, entriesSet, hk]
    · simp [Nilable.ofEntries, Nilable.entriesSet, entriesSet, hk, ih1]

/-- `Add` of a function in the registry with nil is `Add` in the registry of functions. -/
theorem nilable_ofMux_Add (m : Mux σ) (name : String) (r : Reporter σ) :
    (Nilable.ofMux m).Add name (some r) = Nilable.ofMux (m.Add name r) := by
  cases he : m.err with
  | some e => simp [Nilable.Mux.Add, Mux.Add, Nilable.ofMux, he]
  | none =>
    cases hg : m.gg with
    | none => simp [Nilable.Mux.Add, Mux.Add, Nilable.ofMux, he, hg]
    | some l =>
      cases hl : entriesGet l name with
      | none =>
        simp [Nilable.Mux.Add, Mux.Add, Nilable.ofMux, he, hg, hl,
          nilable_entriesGet_ofEntries]
      | some g =>
        have hset := nilable_entriesSet_ofEntries l name { g with rr := g.rr ++ [r] }
        simp only [Nilable.ofGroup, List.map_append, List.map_cons, List.map_nil] at hset
        simp [Nilable.Mux.Add, Mux.Add, Nilable.ofMux, he, hg, hl,
          nilable_entriesGet_ofEntries, Nilable.ofGroup, hset]

/-- On reporters that are functions the normal path with nil is the normal path, and it
returns. -/
theorem nilable_reportLoop_of (logger : Option (ErrorLogger σ)) (name : String)
    (tryAll : Bool) (trace : Trace) (topic body : String) (rs : List (Reporter σ)) :
    ∀ (i : Nat) (w : σ),
      Nilable.reportLoop logger name tryAll trace topic body i (rs.map some) w
        = ((reportLoop logger name tryAll trace topic body i rs w).1,
            (reportLoop logger name tryAll trace topic body i rs w).2,
            Nilable.Ending.returned) := by
  induction rs with
  | nil => intro i w; rfl
  | cons r rest ih =>
    intro i w
    rcases hr : r trace topic body w with ⟨ret, w1⟩
    cases ret with
    | none =>
      cases tryAll with
      | false => simp [Nilable.reportLoop, reportLoop, hr]
      | true => simp [Nilable.reportLoop, reportLoop, hr, ih]
    | some err =>
      cases logger with
      | none => simp [Nilable.reportLoop, reportLoop, hr, ih]
      | some l => simp [Nilable.reportLoop, reportLoop, hr, ih]

/-- For a registered name, `Report` on a registry whose reporters are all functions is
the `Report` of the registry of functions, and it returns. -/
theorem nilable_Report_of_known (m : Mux σ) (nro : Nilable.RangeOrder σ) (ro : RangeOrder σ)
    (site : CallSite) (name : String) (g : group σ) (trace : Trace) (topic body : String)
    (w : σ) (hreg : mapGet m.gg name = some g) :
    (Nilable.ofMux m).Report nro site name trace topic body w
      = ((m.Report ro site name trace topic body w).1,
          (m.Report ro site name trace topic body w).2, Nilable.Ending.returned) := by
  have hget : Nilable.mapGet (Nilable.ofMux m).gg name = some (Nilable.ofGroup g) := by
    cases hg : m.gg with
    | none => simp [mapGet, hg] at hreg
    | some l =>
      have hl : entriesGet l name = some g := by simpa [mapGet, hg] using hreg
      simp [Nilable.ofMux, Nilable.mapGet, hg, nilable_entriesGet_ofEntries, hl]
  cases hnop : m.nop with
  | true => simp [Nilable.Mux.Report, Mux.Report, Nilable.ofMux, hnop]
  | false =>
    have hn : (Nilable.ofMux m).nop = false := hnop
    have hlg : (Nilable.ofMux m).logger = m.logger := rfl
    simp only [Nilable.Mux.Report, Mux.Report, hn, hnop, hget, hreg, hlg, Bool.false_eq_true,
      if_false]
    exact nilable_reportLoop_of m.logger name g.tryAll trace topic body g.rr 0 w

end NilReporters

end Ert
